import Mathlib

/-!
Verification of the `egg` task-orchestration service.

This file gives a shallow embedding of the engine implemented under `src/`:
the data model (`src/tasks.rs`, `src/plans.rs`, `src/error.rs`), the process
runner and output stream (`src/process.rs`), the scheduler (`src/server/run.rs`),
the plan materializer (`src/server/plan.rs`), and the HTTP surface
(`src/server.rs`, `src/server/handlers.rs`).

Uuids are modelled as natural numbers (`Uuid::new_v4` becomes a fresh-counter
supply), `std::process::ExitStatus` as a natural exit code, `std::io::Error`
as a string message.  The tokio `Notify` handle `finished` is modelled by a
counter `notifyCount` recording how many times `notify_waiters()` has been
called on it.  Concurrency is collapsed to one sequential interleaving: a
spawned future runs to completion at its spawn point; mutex-guarded critical
sections become atomic state updates.
-/

namespace Egg

/-- An OS-level I/O error (`std::io::Error`), modelled by its message. -/
abbrev IoErr := String

/-- `TaskPlan` from `src/tasks.rs`: provenance reference attached to a task
materialized from a plan. -/
structure TaskPlan where
  id : Nat
  version : Nat
  deriving DecidableEq, Repr

/-- `TaskSpec` from `src/tasks.rs`: command leaf, parallel group of child task
ids, or serial list of child task ids. -/
inductive TaskSpec where
  | command (args : List String)
  | taskGroup (parallel : List Nat)
  | taskList (serial : List Nat)
  deriving DecidableEq, Repr

/-- `TaskStatus` from `src/tasks.rs`. -/
inductive TaskStatus where
  | pending
  | running
  | waiting
  | success
  | failure
  deriving DecidableEq, Repr

/-- `Error` from `src/error.rs`. -/
inductive Error where
  | notImplemented
  | commandFailed (err : IoErr)
  | exitFailure (status : Nat)
  | planNotFound (id : Nat)
  | taskNotFound (id : Nat)
  | taskFailed (id : Nat)
  deriving DecidableEq, Repr

/-- `ServerError` from `src/server.rs`. -/
inductive ServerError where
  | internalServerError
  | planNotFound (id : Nat)
  | taskNotFound (id : Nat)
  | invalidTaskState (id : Nat)
  deriving DecidableEq, Repr

/-- `Output` from `src/process.rs`: one captured line, tagged by stream. -/
inductive Output where
  | stdout (line : String)
  | stderr (line : String)
  deriving DecidableEq, Repr

/-- `ProcessState` from `src/process.rs`: the mutex-guarded interior of a
`Process` (append-only output buffer plus optional exit status). -/
structure ProcessState where
  output : List Output
  status : Option Nat
  deriving DecidableEq, Repr

/-- `ServerTask` from `src/server.rs`.  `notifyCount` models the `finished`
notify handle: the number of `notify_waiters()` calls made on it. -/
structure ServerTask where
  plan : Option TaskPlan
  spec : TaskSpec
  status : TaskStatus
  running : Option ProcessState
  notifyCount : Nat
  error : Option Error
  deriving DecidableEq, Repr

/-- Wire-level `Task` from `src/tasks.rs`. -/
structure Task where
  id : Nat
  plan : Option TaskPlan
  spec : TaskSpec
  status : TaskStatus
  deriving DecidableEq, Repr

/-- `TaskState` from `src/tasks.rs`: the response body of the start endpoint. -/
structure TaskState where
  id : Nat
  spec : TaskSpec
  status : TaskStatus
  deriving DecidableEq, Repr

/-- The task store `HashMap<Uuid, Arc<Mutex<ServerTask>>>` of `Server`
(`src/server.rs`), modelled as an association list in insertion order
(insertion order is needed to state the leaves-last materialization claim;
fresh ids never collide, so first-match lookup agrees with the hash map). -/
abbrev Store := List (Nat × ServerTask)

/-- `server.tasks.lock().await.get(&id)`. -/
def lookupTask : Store → Nat → Option ServerTask
  | [], _ => none
  | e :: s, id => if e.1 = id then some e.2 else lookupTask s id

/-- Mutation of the record behind `task.lock().await` for a given id. -/
def updateTask (s : Store) (id : Nat) (f : ServerTask → ServerTask) : Store :=
  s.map (fun e => if e.1 = id then (e.1, f e.2) else e)

/-- A freshly inserted task record: status `Pending`, no process handle, a new
(never-notified) `finished` handle, no error — as built by
`create_task` (`src/server/handlers.rs`) and `task` (`src/server/plan.rs`). -/
def newServerTask (plan : Option TaskPlan) (spec : TaskSpec) : ServerTask :=
  { plan := plan, spec := spec, status := .pending, running := none,
    notifyCount := 0, error := none }

/-- The status written by `start_task`'s dispatch on the spec
(`src/server/run.rs` lines 35-45). -/
def startStatus : TaskSpec → TaskStatus
  | .command _ => .running
  | .taskGroup _ => .waiting
  | .taskList _ => .waiting

/-- `start_task` from `src/server/run.rs` (lines 12-57), without the spawn of
`run_task` (execution is modelled separately by `exec`): look the task up
(`TaskNotFound` if absent), reject a non-`Pending` status with
`InvalidTaskState`, otherwise write the dispatch status and return the new
`TaskState`. -/
def startTask (s : Store) (id : Nat) : Except ServerError (Store × TaskState) :=
  match lookupTask s id with
  | none => .error (.taskNotFound id)
  | some t =>
    if t.status = .pending then
      .ok (updateTask s id (fun u => { u with status := startStatus u.spec }),
           { id := id, spec := t.spec, status := startStatus t.spec })
    else
      .error (.invalidTaskState id)

/-- `finish_task` from `src/server/run.rs` (lines 159-172): if the task exists,
unconditionally set status `Success` and call `finished.notify_waiters()`.
Note there is no guard against the task already being settled, and `running`
and `error` are left untouched. -/
def finishTask (s : Store) (id : Nat) : Store :=
  match lookupTask s id with
  | none => s
  | some _ =>
    updateTask s id (fun t =>
      { t with status := .success, notifyCount := t.notifyCount + 1 })

/-- `fail_task` from `src/server/run.rs` (lines 175-190): if the task exists,
unconditionally store the error, set status `Failure` and call
`finished.notify_waiters()`. -/
def failTask (s : Store) (id : Nat) (err : Error) : Store :=
  match lookupTask s id with
  | none => s
  | some _ =>
    updateTask s id (fun t =>
      { t with error := some err, status := .failure,
               notifyCount := t.notifyCount + 1 })

/-- The re-read performed by `wait_task` (`src/server/run.rs` lines 193-225)
after `finished.notified().await` fires.  The result `none` models the panic
of `task.error.clone().unwrap()` in the `Failure` branch when no error is
stored; every non-panicking outcome is `some _`. -/
def waitTaskRead (s : Store) (id : Nat) : Option (Except Error Unit) :=
  match lookupTask s id with
  | none => some (.error (.taskNotFound id))
  | some t =>
    match t.status with
    | .success => some (.ok ())
    | .failure => t.error.map .error
    | _ => some (.error (.taskFailed id))

/-- The observable behaviour of the OS process spawned for a command task:
either the spawn fails, or spawn succeeds and `wait` fails after some lines
were captured, or the process runs to completion emitting `lines` and exiting
with `code`. -/
inductive CmdBehavior where
  | spawnFail (err : IoErr)
  | waitFail (lines : List Output) (err : IoErr)
  | exits (lines : List Output) (code : Nat)
  deriving DecidableEq, Repr

/-- `Process::run` from `src/process.rs` (lines 32-81), as a function of the
OS behaviour: on a successful spawn the reader tasks append the captured
lines to the buffer; on a successful wait the exit status is recorded and
`Ok(())` is returned REGARDLESS of the exit code (the code never inspects
`status.success()`); spawn/wait failures return `CommandFailed`.  The result
is the final `ProcessState` (starting from `Process::new`) together with the
`Result` of `run`. -/
def processRun : CmdBehavior → ProcessState × Except Error Unit
  | .spawnFail err => ({ output := [], status := none }, .error (.commandFailed err))
  | .waitFail lines err => ({ output := lines, status := none }, .error (.commandFailed err))
  | .exits lines code => ({ output := lines, status := some code }, .ok ())

/-- Assignment of an OS behaviour to each command task, indexed by task id
(the model's stand-in for what the host does when the task's argv runs). -/
abbrev Oracle := Nat → CmdBehavior

/-- The pending work items of the scheduler: `run_task(id)` itself, the
child loop of the `TaskGroup` branch, and the child loop of the `TaskList`
branch of `run_task` (`src/server/run.rs` lines 60-156). -/
inductive Call where
  | task (id : Nat)
  | group (children : List Nat)
  | serial (parent : Nat) (children : List Nat)

/-- Sequential big-step execution of `run_task` (`src/server/run.rs` lines
60-156), fuel-indexed so the recursion through the stored task graph is
total (cyclic stores simply exhaust fuel).

`.task id` is `run_task(server, id)`:
* missing task: return (line 66-68);
* `Command` branch (lines 73-89): build a fresh `Process`, attach it as
  `running`, run it, then `finish_task` on `Ok` and `fail_task(err)` on
  `Err` — the recorded exit code is never consulted;
* `TaskGroup` branch (lines 90-126): run the child loop, then
  `finish_task(parent)`.  In the source each child's closure returns a
  `Result<(), Error>` through its `JoinHandle`, but the aggregation loop
  `if let Err(_) = handle.await` matches only the `JoinError` of the join
  itself (a panic or abort) and DISCARDS the inner result, so under
  panic-free execution the parent is always finished;
* `TaskList` branch (lines 127-154): the serial child loop.

`.group cs` is the `TaskGroup` child loop: `start_task(child)` then
`wait_task(child)` per child, the spawned child execution folded in
sequentially; start errors skip the child (the closure's early return) and
`wait_task` has no store effect, so only the child's own execution remains.

`.serial p cs` is the `TaskList` child loop: `start_task(child)`, on
`TaskNotFound` fail the parent with `TaskNotFound(child)` and stop, on any
other start error fail it with `TaskFailed(child)` and stop; otherwise run
the child, re-read its status as `wait_task` does, and on a non-`Ok` wait
fail the parent with `TaskFailed(child)` and stop; when the loop completes,
`finish_task(parent)`. -/
def exec (oracle : Oracle) : Nat → Store → Call → Store
  | 0, s, _ => s
  | fuel + 1, s, .task id =>
    match lookupTask s id with
    | none => s
    | some t =>
      match t.spec with
      | .command _ =>
        let pr := processRun (oracle id)
        let s1 := updateTask s id (fun u => { u with running := some pr.1 })
        match pr.2 with
        | .ok _ => finishTask s1 id
        | .error err => failTask s1 id err
      | .taskGroup parallel => finishTask (exec oracle fuel s (.group parallel)) id
      | .taskList serial => exec oracle fuel s (.serial id serial)
  | _ + 1, s, .group [] => s
  | fuel + 1, s, .group (c :: cs) =>
    let s' :=
      match startTask s c with
      | .error _ => s
      | .ok (s1, _) => exec oracle fuel s1 (.task c)
    exec oracle fuel s' (.group cs)
  | _ + 1, s, .serial parent [] => finishTask s parent
  | fuel + 1, s, .serial parent (c :: cs) =>
    match startTask s c with
    | .error (.taskNotFound _) => failTask s parent (.taskNotFound c)
    | .error _ => failTask s parent (.taskFailed c)
    | .ok (s1, _) =>
      let s2 := exec oracle fuel s1 (.task c)
      match waitTaskRead s2 c with
      | some (.ok _) => exec oracle fuel s2 (.serial parent cs)
      | _ => failTask s2 parent (.taskFailed c)

/-- `run_task` on a single task id. -/
def runTask (oracle : Oracle) (fuel : Nat) (s : Store) (id : Nat) : Store :=
  exec oracle fuel s (.task id)

/-- `PlanSpec` from `src/plans.rs`: the declarative plan tree. -/
inductive PlanSpec where
  | command (args : List String)
  | taskGroup (parallel : List PlanSpec)
  | taskList (serial : List PlanSpec)

mutual

/-- The plan materializer `task` from `src/server/plan.rs` (lines 13-100).
`Uuid::new_v4()` is modelled by a fresh-id counter `ctr`; each insertion into
`server.tasks` appends to the store.  For a `Command` leaf a fresh pending
task is registered and returned; for `TaskGroup`/`TaskList` the children are
materialized first in order (collecting their ids), then the parent is
registered with those ids.  Returns the root's wire `Task`, the next counter
value and the new store. -/
def matTask (plan : TaskPlan) : PlanSpec → Nat → Store → Task × Nat × Store
  | .command args, ctr, s =>
    let t : Task := { id := ctr, plan := some plan, spec := .command args,
                      status := .pending }
    (t, ctr + 1, s ++ [(ctr, newServerTask (some plan) (.command args))])
  | .taskGroup parallel, ctr, s =>
    let r := matChildren plan parallel ctr s
    let t : Task := { id := r.2.1, plan := some plan, spec := .taskGroup r.1,
                      status := .pending }
    (t, r.2.1 + 1,
     r.2.2 ++ [(r.2.1, newServerTask (some plan) (.taskGroup r.1))])
  | .taskList serial, ctr, s =>
    let r := matChildren plan serial ctr s
    let t : Task := { id := r.2.1, plan := some plan, spec := .taskList r.1,
                      status := .pending }
    (t, r.2.1 + 1,
     r.2.2 ++ [(r.2.1, newServerTask (some plan) (.taskList r.1))])

/-- The child loop of `task` (`src/server/plan.rs` lines 43-47 and 71-75):
materialize each child spec in order, collecting the child task ids. -/
def matChildren (plan : TaskPlan) : List PlanSpec → Nat → Store → List Nat × Nat × Store
  | [], ctr, s => ([], ctr, s)
  | p :: ps, ctr, s =>
    let r := matTask plan p ctr s
    let r' := matChildren plan ps r.2.1 r.2.2
    (r.1.id :: r'.1, r'.2.1, r'.2.2)

end

mutual

/-- Number of nodes of a plan tree. -/
def planSize : PlanSpec → Nat
  | .command _ => 1
  | .taskGroup parallel => planListSize parallel + 1
  | .taskList serial => planListSize serial + 1

/-- Total number of nodes of a list of plan trees. -/
def planListSize : List PlanSpec → Nat
  | [] => 0
  | p :: ps => planSize p + planListSize ps

end

mutual

/-- The store holds, at `id`, a task tree of the same shape as the plan tree
`p`: command nodes map to command tasks with the same args, composite nodes
map to composite tasks of the same variant whose child-id lists mirror the
child plan list element-wise. -/
def Mirrors (s : Store) : Nat → PlanSpec → Prop
  | id, .command args =>
    ∃ t, lookupTask s id = some t ∧ t.spec = .command args
  | id, .taskGroup parallel =>
    ∃ t ids, lookupTask s id = some t ∧ t.spec = .taskGroup ids ∧
      MirrorsChildren s ids parallel
  | id, .taskList serial =>
    ∃ t ids, lookupTask s id = some t ∧ t.spec = .taskList ids ∧
      MirrorsChildren s ids serial

/-- Element-wise `Mirrors` between a child-id list and a child plan list. -/
def MirrorsChildren (s : Store) : List Nat → List PlanSpec → Prop
  | [], [] => True
  | id :: ids, p :: ps => Mirrors s id p ∧ MirrorsChildren s ids ps
  | _, _ => False

end

/-- `poll_next` of `OutputStream` (`src/process.rs` lines 100-119) on the
locked process state, as a function of the consumer's cursor: if the cursor
is inside the buffer, yield that line and advance; else if the exit status is
recorded, end the stream; else stay pending with the cursor unchanged.  (The
`try_lock` failure path also returns pending with the cursor unchanged, so it
is subsumed by the pending case.) -/
inductive PollResult where
  | yield (o : Output)
  | eos
  | pending
  deriving DecidableEq, Repr

/-- One poll of an `OutputStream` consumer with cursor `i` against a snapshot
of the process state; returns the poll outcome and the new cursor. -/
def pollNext (st : ProcessState) (i : Nat) : PollResult × Nat :=
  match st.output.get? i with
  | some o => (.yield o, i + 1)
  | none => if st.status.isSome then (.eos, i) else (.pending, i)

/-- A consumer's run: poll once against each successive snapshot of the
process state (each snapshot is the state at one `poll_next` call), stopping
at end-of-stream; returns the yielded lines and the final cursor. -/
def consumeFrom : List ProcessState → Nat → List Output × Nat
  | [], i => ([], i)
  | st :: sts, i =>
    match pollNext st i with
    | (.yield o, i') =>
      let r := consumeFrom sts i'
      (o :: r.1, r.2)
    | (.eos, _) => ([], i)
    | (.pending, _) => consumeFrom sts i

/-- A snapshot agrees with the reference buffer `B` wherever it is defined
(true of every snapshot of an append-only buffer whose final content is a
prefix of `B`). -/
def AgreesWith (st : ProcessState) (B : List Output) : Prop :=
  ∀ i o, st.output.get? i = some o → B.get? i = some o

/-- Wire-level `Plan`.  `src/plans.rs` (lines 11-15) declares only `id` and
`spec`; the `version` field is read and written by every plan handler in
`src/server/handlers.rs` (`create_plan` builds `version: 0`, `get_plan` and
`list_plans` return `plan.version`, `plan` materializes with it), so the
snapshot's `plans.rs` is stale.  Modelled from the spec: `Plan` carries
`version: u64`, matching the handlers' usage. -/
structure Plan where
  id : Nat
  spec : PlanSpec
  version : Nat

/-- The plan store `HashMap<Uuid, Arc<Mutex<Plan>>>` of `Server`
(`src/server.rs`), as an association list in insertion order. -/
abbrev PlanStore := List (Nat × Plan)

/-- `server.plans.lock().await.get(&id)`. -/
def lookupPlan : PlanStore → Nat → Option Plan
  | [], _ => none
  | e :: s, id => if e.1 = id then some e.2 else lookupPlan s id

/-- The whole server state (`Server` from `src/server.rs`). -/
structure ServerState where
  plans : PlanStore
  tasks : Store

/-- `create_plan` from `src/server/handlers.rs` (lines 14-30): build a plan
with a fresh id and `version: 0`, insert it, and return it. -/
def createPlan (ps : PlanStore) (fresh : Nat) (spec : PlanSpec) : PlanStore × Plan :=
  let plan : Plan := { id := fresh, spec := spec, version := 0 }
  (ps ++ [(fresh, plan)], plan)

/-- `get_plan` from `src/server/handlers.rs` (lines 60-75): return the stored
plan's spec and version (note the source reports a missing plan as
`TaskNotFound`). -/
def getPlan (ps : PlanStore) (id : Nat) : Except ServerError Plan :=
  match lookupPlan ps id with
  | some plan => .ok { id := id, spec := plan.spec, version := plan.version }
  | none => .error (.taskNotFound id)

/-- The HTTP requests wired by `serve` (`src/server.rs` lines 84-97); each
constructor is one route of the router. -/
inductive Request where
  | getPlanReq (planId : Nat)
  | materializePlanReq (planId : Nat)
  | listPlansReq
  | createPlanReq (spec : PlanSpec)
  | listTasksReq
  | createTaskReq (spec : TaskSpec)
  | getTaskReq (taskId : Nat)
  | taskOutputStreamReq (taskId : Nat)
  | startTaskReq (taskId : Nat)

/-- The state effect of each wired handler (`src/server/handlers.rs`); `fresh`
supplies the `Uuid::new_v4()` of the handler, `oracle`/`fuel` drive any
spawned execution.  GET handlers and the output stream do not mutate server
state; `plan` (POST `/plan/:plan_id`) materializes the stored spec with
`TaskPlan { id, version }`; `start_task` admits the task and spawns
`run_task`. -/
def handleRequest (oracle : Oracle) (fuel fresh : Nat) :
    Request → ServerState → ServerState
  | .getPlanReq _, st => st
  | .materializePlanReq planId, st =>
    match lookupPlan st.plans planId with
    | none => st
    | some plan =>
      { st with tasks :=
          (matTask { id := plan.id, version := plan.version } plan.spec fresh
            st.tasks).2.2 }
  | .listPlansReq, st => st
  | .createPlanReq spec, st =>
    { st with plans := (createPlan st.plans fresh spec).1 }
  | .listTasksReq, st => st
  | .createTaskReq spec, st =>
    { st with tasks := st.tasks ++ [(fresh, newServerTask none spec)] }
  | .getTaskReq _, st => st
  | .taskOutputStreamReq _, st => st
  | .startTaskReq taskId, st =>
    match startTask st.tasks taskId with
    | .error _ => st
    | .ok (s', _) => { st with tasks := runTask oracle fuel s' taskId }

/-- HTTP methods used by the router. -/
inductive Method where
  | get
  | post
  deriving DecidableEq, Repr

/-- Tags for the handler functions of `src/server/handlers.rs`, plus the
`update_plan` handler that exists only in the unwired module
`src/egg/server/handlers.rs` (lines 205-219). -/
inductive HandlerTag where
  | getPlanH
  | materializePlanH
  | listPlansH
  | createPlanH
  | listTasksH
  | createTaskH
  | getTaskH
  | taskOutputStreamH
  | startTaskH
  | updatePlanH
  deriving DecidableEq, Repr

/-- The route table of `serve` (`src/server.rs` lines 88-95), verbatim:
method, path pattern, handler. -/
def serveRoutes : List (Method × String × HandlerTag) :=
  [(.get, "/plan/:plan_id", .getPlanH),
   (.post, "/plan/:plan_id", .materializePlanH),
   (.get, "/plans", .listPlansH),
   (.post, "/plans", .createPlanH),
   (.get, "/tasks", .listTasksH),
   (.post, "/tasks", .createTaskH),
   (.get, "/tasks/:task_id", .getTaskH),
   (.get, "/tasks/:task_id/output", .taskOutputStreamH),
   (.post, "/tasks/:task_id/start", .startTaskH)]

/-! Store lemmas -/

theorem lookupTask_append (s u : Store) (id : Nat) :
    lookupTask (s ++ u) id =
      match lookupTask s id with
      | some t => some t
      | none => lookupTask u id := by
  induction s with
  | nil => simp [lookupTask]
  | cons e s ih =>
    by_cases h : e.1 = id <;> simp [lookupTask, h, ih]

theorem lookupTask_append_of_some {s : Store} {id : Nat} {t : ServerTask}
    (h : lookupTask s id = some t) (u : Store) :
    lookupTask (s ++ u) id = some t := by
  rw [lookupTask_append, h]

theorem lookupTask_append_of_none {s : Store} {id : Nat}
    (h : lookupTask s id = none) (u : Store) :
    lookupTask (s ++ u) id = lookupTask u id := by
  rw [lookupTask_append, h]

theorem lookupTask_eq_none (s : Store) (id : Nat)
    (h : ∀ e ∈ s, e.1 ≠ id) : lookupTask s id = none := by
  induction s with
  | nil => rfl
  | cons e s ih =>
    have he : e.1 ≠ id := h e (by simp)
    simp only [lookupTask, if_neg he]
    exact ih (fun e' he' => h e' (by simp [he']))

theorem lookupTask_updateTask_self (s : Store) (id : Nat)
    (f : ServerTask → ServerTask) :
    lookupTask (updateTask s id f) id = (lookupTask s id).map f := by
  induction s with
  | nil => rfl
  | cons e s ih =>
    by_cases h : e.1 = id
    · simp [lookupTask, updateTask, h]
    · simp only [updateTask, List.map_cons, if_neg h, lookupTask]
      simpa [updateTask] using ih

theorem lookupTask_updateTask_ne (s : Store) (id id' : Nat)
    (f : ServerTask → ServerTask) (h : id' ≠ id) :
    lookupTask (updateTask s id f) id' = lookupTask s id' := by
  induction s with
  | nil => rfl
  | cons e s ih =>
    by_cases he : e.1 = id
    · have h2 : e.1 ≠ id' := fun hc => h (hc.symm.trans he)
      simp only [updateTask, List.map_cons, if_pos he, lookupTask]
      rw [if_neg h2, if_neg h2]
      simpa [updateTask] using ih
    · simp only [updateTask, List.map_cons, if_neg he, lookupTask]
      by_cases he' : e.1 = id'
      · rw [if_pos he', if_pos he']
      · rw [if_neg he', if_neg he']
        simpa [updateTask] using ih

theorem updateTask_updateTask (s : Store) (id : Nat)
    (f g : ServerTask → ServerTask) :
    updateTask (updateTask s id f) id g = updateTask s id (fun t => g (f t)) := by
  induction s with
  | nil => rfl
  | cons e s ih =>
    by_cases h : e.1 = id <;> simp [updateTask, h] <;>
      simpa [updateTask] using ih

/-- The record transformer of `finish_task`. -/
def finishF (t : ServerTask) : ServerTask :=
  { t with status := .success, notifyCount := t.notifyCount + 1 }

/-- The record transformer of `fail_task`. -/
def failF (err : Error) (t : ServerTask) : ServerTask :=
  { t with error := some err, status := .failure, notifyCount := t.notifyCount + 1 }

theorem finishTask_eq_updateTask {s : Store} {id : Nat} {t : ServerTask}
    (h : lookupTask s id = some t) :
    finishTask s id = updateTask s id finishF := by
  simp only [finishTask, h]
  rfl

theorem failTask_eq_updateTask {s : Store} {id : Nat} {t : ServerTask}
    (h : lookupTask s id = some t) (err : Error) :
    failTask s id err = updateTask s id (failF err) := by
  simp only [failTask, h]
  rfl

theorem lookupTask_finishTask_self (s : Store) (id : Nat) :
    lookupTask (finishTask s id) id = (lookupTask s id).map finishF := by
  match h : lookupTask s id with
  | none => simp [finishTask, h]
  | some t =>
    rw [finishTask_eq_updateTask h, lookupTask_updateTask_self, h]

theorem lookupTask_finishTask_ne (s : Store) (id id' : Nat) (h : id' ≠ id) :
    lookupTask (finishTask s id) id' = lookupTask s id' := by
  match hl : lookupTask s id with
  | none => simp [finishTask, hl]
  | some t => rw [finishTask_eq_updateTask hl, lookupTask_updateTask_ne _ _ _ _ h]

theorem lookupTask_failTask_self (s : Store) (id : Nat) (err : Error) :
    lookupTask (failTask s id err) id = (lookupTask s id).map (failF err) := by
  match h : lookupTask s id with
  | none => simp [failTask, h]
  | some t => rw [failTask_eq_updateTask h, lookupTask_updateTask_self, h]

theorem lookupTask_failTask_ne (s : Store) (id id' : Nat) (err : Error)
    (h : id' ≠ id) :
    lookupTask (failTask s id err) id' = lookupTask s id' := by
  match hl : lookupTask s id with
  | none => simp [failTask, hl]
  | some t => rw [failTask_eq_updateTask hl, lookupTask_updateTask_ne _ _ _ _ h]

/-! Command execution lemmas -/

/-- The net record transformation of `run_task`'s `Command` branch on the
task's record, as a function of the process behaviour: attach the final
process state as `running`, then settle by the `Result` of `Process::run`. -/
def cmdApply : CmdBehavior → ServerTask → ServerTask
  | .exits lines code, t =>
    finishF { t with running := some { output := lines, status := some code } }
  | .spawnFail err, t =>
    failF (.commandFailed err) { t with running := some { output := [], status := none } }
  | .waitFail lines err, t =>
    failF (.commandFailed err) { t with running := some { output := lines, status := none } }

theorem exec_command {s : Store} {c : Nat} {t : ServerTask} {args : List String}
    (oracle : Oracle) (fuel : Nat)
    (hl : lookupTask s c = some t) (hs : t.spec = .command args) :
    exec oracle (fuel + 1) s (.task c) = updateTask s c (cmdApply (oracle c)) := by
  have hmap : lookupTask (updateTask s c
      (fun u => { u with running := some (processRun (oracle c)).1 })) c =
      some { t with running := some (processRun (oracle c)).1 } := by
    rw [lookupTask_updateTask_self, hl]; rfl
  cases hb : oracle c with
  | exits lines code =>
    simp only [exec, hl, hs, hb, processRun]
    rw [finishTask_eq_updateTask (by rw [hb] at hmap; exact hmap),
        updateTask_updateTask]
    rfl
  | spawnFail err =>
    simp only [exec, hl, hs, hb, processRun]
    rw [failTask_eq_updateTask (by rw [hb] at hmap; exact hmap),
        updateTask_updateTask]
    rfl
  | waitFail lines err =>
    simp only [exec, hl, hs, hb, processRun]
    rw [failTask_eq_updateTask (by rw [hb] at hmap; exact hmap),
        updateTask_updateTask]
    rfl

/-- The net record transformation of `start_task` followed by the command's
`run_task` on a pending command task. -/
def startedCmd (b : CmdBehavior) (u : ServerTask) : ServerTask :=
  cmdApply b { u with status := startStatus u.spec }

/-- Whether the modelled OS behaviour makes `Process::run` return an `Err`
(only spawn or wait failures do; the exit code never does). -/
def behaviorFails : CmdBehavior → Bool
  | .exits _ _ => false
  | .spawnFail _ => true
  | .waitFail _ _ => true

/-- `start_task` then `run_task` on a pending command task `c`: the start
succeeds and the combined store effect is `startedCmd (oracle c)` applied at
`c`. -/
theorem startRunCmd {s : Store} {c : Nat} {t : ServerTask} {args : List String}
    (oracle : Oracle) (fuel : Nat)
    (hl : lookupTask s c = some t) (hp : t.status = .pending)
    (hs : t.spec = .command args) :
    startTask s c = .ok (updateTask s c (fun u => { u with status := startStatus u.spec }),
        { id := c, spec := t.spec, status := startStatus t.spec }) ∧
    exec oracle (fuel + 1)
        (updateTask s c (fun u => { u with status := startStatus u.spec })) (.task c) =
      updateTask s c (startedCmd (oracle c)) := by
  constructor
  · simp [startTask, hl, hp]
  · have hl' : lookupTask (updateTask s c
        (fun u => { u with status := startStatus u.spec })) c =
        some { t with status := startStatus t.spec } := by
      rw [lookupTask_updateTask_self, hl]; rfl
    rw [exec_command oracle fuel hl' (by simpa using hs), updateTask_updateTask]
    rfl

/-- Reading a successfully settled command task's state the way `wait_task`
does. -/
theorem waitTaskRead_startedCmd_ok {s : Store} {c : Nat} {t : ServerTask}
    {b : CmdBehavior} (hl : lookupTask s c = some (startedCmd b t))
    (hb : behaviorFails b = false) :
    waitTaskRead s c = some (.ok ()) := by
  cases b <;> simp_all [waitTaskRead, startedCmd, cmdApply, finishF, failF, behaviorFails]

/-- Reading a failed command task's state the way `wait_task` does. -/
theorem waitTaskRead_startedCmd_err {s : Store} {c : Nat} {t : ServerTask}
    {b : CmdBehavior} (hl : lookupTask s c = some (startedCmd b t))
    (hb : behaviorFails b = true) :
    ∃ e, waitTaskRead s c = some (.error (.commandFailed e)) := by
  cases b <;> simp_all [waitTaskRead, startedCmd, cmdApply, finishF, failF, behaviorFails]

theorem startedCmd_status (b : CmdBehavior) (t : ServerTask) :
    (startedCmd b t).status = if behaviorFails b then .failure else .success := by
  cases b <;> rfl

theorem startedCmd_spec_eq (b : CmdBehavior) (t : ServerTask) :
    (startedCmd b t).spec = t.spec := by
  cases b <;> rfl

/-! Serial (TaskList) execution -/

theorem serial_ok (oracle : Oracle) (pid : Nat) :
    ∀ (cs : List Nat) (n : Nat) (s : Store),
      cs.length + 1 < n →
      cs.Nodup → pid ∉ cs →
      (∀ c ∈ cs, ∃ t args, lookupTask s c = some t ∧ t.status = .pending ∧
        t.spec = .command args) →
      (∀ c ∈ cs, behaviorFails (oracle c) = false) →
      lookupTask (exec oracle n s (.serial pid cs)) pid
          = (lookupTask s pid).map finishF ∧
      (∀ c ∈ cs, lookupTask (exec oracle n s (.serial pid cs)) c
          = (lookupTask s c).map (startedCmd (oracle c))) ∧
      (∀ id, id ∉ cs → id ≠ pid →
        lookupTask (exec oracle n s (.serial pid cs)) id = lookupTask s id) := by
  intro cs
  induction cs with
  | nil =>
    intro n s hn _ _ _ _
    obtain ⟨m, rfl⟩ : ∃ m, n = m + 1 := ⟨n - 1, by omega⟩
    refine ⟨?_, by simp, ?_⟩
    · simp only [exec]
      exact lookupTask_finishTask_self s pid
    · intro id _ hne
      simp only [exec]
      exact lookupTask_finishTask_ne s pid id hne
  | cons c cs ih =>
    intro n s hn hnd hpid hpend hok
    obtain ⟨m, rfl⟩ : ∃ m, n = m + 1 := ⟨n - 1, by omega⟩
    obtain ⟨t, args, hl, hp, hs⟩ := hpend c (by simp)
    obtain ⟨k, hm⟩ : ∃ k, m = k + 1 := ⟨m - 1, by simp at hn; omega⟩
    obtain ⟨hstart, hrun⟩ := startRunCmd (t := t) oracle k hl hp hs
    rw [← hm] at hrun
    have hcne : c ∉ cs := by simp [List.nodup_cons] at hnd; exact hnd.1
    have hnd' : cs.Nodup := by simp [List.nodup_cons] at hnd; exact hnd.2
    have hpidc : pid ≠ c := by intro h; exact hpid (by simp [h])
    have hpid' : pid ∉ cs := fun h => hpid (by simp [h])
    -- the store after the child has been started and run
    set s2 := updateTask s c (startedCmd (oracle c)) with hs2
    have hl2 : lookupTask s2 c = some (startedCmd (oracle c) t) := by
      rw [hs2, lookupTask_updateTask_self, hl]; rfl
    have hwait : waitTaskRead s2 c = some (.ok ()) :=
      waitTaskRead_startedCmd_ok hl2 (hok c (by simp))
    have hexec : exec oracle (m + 1) s (.serial pid (c :: cs)) =
        exec oracle m s2 (.serial pid cs) := by
      simp only [exec, hstart, hrun, hwait]
    have hlook2 : ∀ id, id ≠ c → lookupTask s2 id = lookupTask s id := by
      intro id hne
      rw [hs2]; exact lookupTask_updateTask_ne s c id _ hne
    have ihm := ih m s2 (by simp at hn ⊢; omega) hnd' hpid'
      (fun c' hc' => by
        obtain ⟨t', args', hl', hp', hs'⟩ := hpend c' (by simp [hc'])
        exact ⟨t', args', by rw [hlook2 c' (fun h => hcne (h ▸ hc'))]; exact hl',
          hp', hs'⟩)
      (fun c' hc' => hok c' (by simp [hc']))
    refine ⟨?_, ?_, ?_⟩
    · rw [hexec, ihm.1, hlook2 pid hpidc]
    · intro c' hc'
      rw [hexec]
      rcases List.mem_cons.mp hc' with h | h
      · subst h
        rw [ihm.2.2 c' hcne (fun h => hpidc h.symm), hl2, hl]; rfl
      · rw [ihm.2.1 c' h, hlook2 c' (fun hh => hcne (hh ▸ h))]
    · intro id hid hne
      rw [hexec, ihm.2.2 id (fun h => hid (by simp [h])) hne,
        hlook2 id (fun h => hid (by simp [h]))]

theorem serial_fail (oracle : Oracle) (pid cf : Nat) (post : List Nat)
    (hfail : behaviorFails (oracle cf) = true) :
    ∀ (pre : List Nat) (n : Nat) (s : Store),
      pre.length + 1 < n →
      (pre ++ cf :: post).Nodup → pid ∉ pre ++ cf :: post →
      (∀ c ∈ pre ++ [cf], ∃ t args, lookupTask s c = some t ∧ t.status = .pending ∧
        t.spec = .command args) →
      (∀ c ∈ pre, behaviorFails (oracle c) = false) →
      lookupTask (exec oracle n s (.serial pid (pre ++ cf :: post))) pid
          = (lookupTask s pid).map (failF (.taskFailed cf)) ∧
      (∀ c ∈ pre, lookupTask (exec oracle n s (.serial pid (pre ++ cf :: post))) c
          = (lookupTask s c).map (startedCmd (oracle c))) ∧
      lookupTask (exec oracle n s (.serial pid (pre ++ cf :: post))) cf
          = (lookupTask s cf).map (startedCmd (oracle cf)) ∧
      (∀ id, id ∉ pre → id ≠ cf → id ≠ pid →
        lookupTask (exec oracle n s (.serial pid (pre ++ cf :: post))) id
          = lookupTask s id) := by
  intro pre
  induction pre with
  | nil =>
    intro n s hn hnd hpid hpend _
    obtain ⟨m, rfl⟩ : ∃ m, n = m + 1 := ⟨n - 1, by omega⟩
    obtain ⟨k, hm⟩ : ∃ k, m = k + 1 := ⟨m - 1, by simp at hn; omega⟩
    obtain ⟨t, args, hl, hp, hs⟩ := hpend cf (by simp)
    obtain ⟨hstart, hrun⟩ := startRunCmd (t := t) oracle k hl hp hs
    rw [← hm] at hrun
    set s2 := updateTask s cf (startedCmd (oracle cf)) with hs2
    have hl2 : lookupTask s2 cf = some (startedCmd (oracle cf) t) := by
      rw [hs2, lookupTask_updateTask_self, hl]; rfl
    have hpidcf : pid ≠ cf := by intro h; exact hpid (by simp [h])
    obtain ⟨e, hwait⟩ := waitTaskRead_startedCmd_err hl2 hfail
    have hexec : exec oracle (m + 1) s (.serial pid ([] ++ cf :: post)) =
        failTask s2 pid (.taskFailed cf) := by
      simp only [List.nil_append, exec, hstart, hrun, hwait]
    refine ⟨?_, by simp, ?_, ?_⟩
    · rw [hexec, lookupTask_failTask_self,
        hs2, lookupTask_updateTask_ne s cf pid _ hpidcf]
    · rw [hexec, lookupTask_failTask_ne _ _ _ _ (fun h => hpidcf h.symm), hl2, hl]
      rfl
    · intro id _ hne hnp
      rw [hexec, lookupTask_failTask_ne _ _ _ _ hnp,
        hs2, lookupTask_updateTask_ne s cf id _ hne]
  | cons c pre ih =>
    intro n s hn hnd hpid hpend hok
    obtain ⟨m, rfl⟩ : ∃ m, n = m + 1 := ⟨n - 1, by omega⟩
    obtain ⟨k, hm⟩ : ∃ k, m = k + 1 := ⟨m - 1, by simp at hn; omega⟩
    obtain ⟨t, args, hl, hp, hs⟩ := hpend c (by simp)
    obtain ⟨hstart, hrun⟩ := startRunCmd (t := t) oracle k hl hp hs
    rw [← hm] at hrun
    have hcne : c ∉ pre ++ cf :: post := by
      simp only [List.cons_append, List.nodup_cons] at hnd; exact hnd.1
    have hnd' : (pre ++ cf :: post).Nodup := by
      simp only [List.cons_append, List.nodup_cons] at hnd; exact hnd.2
    have hpidc : pid ≠ c := by intro h; exact hpid (by simp [h])
    have hpid' : pid ∉ pre ++ cf :: post := fun h => hpid (by
      simp only [List.cons_append, List.mem_cons]; exact .inr h)
    have hccf : c ≠ cf := fun h => hcne (by simp [h])
    set s2 := updateTask s c (startedCmd (oracle c)) with hs2
    have hl2 : lookupTask s2 c = some (startedCmd (oracle c) t) := by
      rw [hs2, lookupTask_updateTask_self, hl]; rfl
    have hwait : waitTaskRead s2 c = some (.ok ()) :=
      waitTaskRead_startedCmd_ok hl2 (hok c (by simp))
    have hexec : exec oracle (m + 1) s (.serial pid ((c :: pre) ++ cf :: post)) =
        exec oracle m s2 (.serial pid (pre ++ cf :: post)) := by
      simp only [List.cons_append, exec, hstart, hrun, hwait]
      rfl
    have hlook2 : ∀ id, id ≠ c → lookupTask s2 id = lookupTask s id := by
      intro id hne
      rw [hs2]; exact lookupTask_updateTask_ne s c id _ hne
    have ihm := ih m s2 (by simp at hn ⊢; omega) hnd' hpid'
      (fun c' hc' => by
        have hc'ne : c' ≠ c := by
          rintro rfl
          rcases List.mem_append.mp hc' with h | h
          · exact hcne (List.mem_append.mpr (.inl h))
          · simp at h
            exact hcne (List.mem_append.mpr (.inr (by simp [h])))
        obtain ⟨t', args', hl', hp', hs'⟩ := hpend c' (by
          rcases List.mem_append.mp hc' with h | h
          · exact List.mem_append.mpr (.inl (by simp [h]))
          · exact List.mem_append.mpr (.inr h))
        exact ⟨t', args', by rw [hlook2 c' hc'ne]; exact hl', hp', hs'⟩)
      (fun c' hc' => hok c' (by simp [hc']))
    refine ⟨?_, ?_, ?_, ?_⟩
    · rw [hexec, ihm.1, hlook2 pid hpidc]
    · intro c' hc'
      rw [hexec]
      rcases List.mem_cons.mp hc' with h | h
      · subst h
        rw [ihm.2.2.2 c' (fun hh => hcne (List.mem_append.mpr (.inl hh))) hccf
          (fun hh => hpidc hh.symm), hl2, hl]
        rfl
      · rw [ihm.2.1 c' h, hlook2 c' (fun hh => hcne (hh ▸ (by
          exact List.mem_append.mpr (.inl h))))]
    · rw [hexec, ihm.2.2.1, hlook2 cf (fun hh => hccf hh.symm)]
    · intro id hid hne hnp
      rw [hexec, ihm.2.2.2 id (fun h => hid (by simp [h])) hne hnp,
        hlook2 id (fun h => hid (by simp [h]))]

/-- `run_task` dispatch on a `TaskList` spec reduces to the serial child loop. -/
theorem exec_taskList {s : Store} {pid : Nat} {pt : ServerTask} {cs : List Nat}
    (oracle : Oracle) (m : Nat)
    (hl : lookupTask s pid = some pt) (hs : pt.spec = .taskList cs) :
    exec oracle (m + 1) s (.task pid) = exec oracle m s (.serial pid cs) := by
  simp only [exec, hl, hs]

/-- `run_task` dispatch on a `TaskGroup` spec reduces to the group child loop
followed by `finish_task` on the parent. -/
theorem exec_taskGroup {s : Store} {pid : Nat} {pt : ServerTask} {cs : List Nat}
    (oracle : Oracle) (m : Nat)
    (hl : lookupTask s pid = some pt) (hs : pt.spec = .taskGroup cs) :
    exec oracle (m + 1) s (.task pid) =
      finishTask (exec oracle m s (.group cs)) pid := by
  simp only [exec, hl, hs]

/-! Claim C1 -/

/-- The store of the failing input for claim C1: a single command task whose
process will exit with status 3. -/
def c1Store : Store :=
  [(0, newServerTask none (.command ["/bin/sh", "-c", "exit 3"]))]

/-- OS behaviour for claim C1: the process spawns, is waited on successfully,
and exits with the non-zero status 3. -/
def c1Oracle : Oracle := fun _ => .exits [] 3

/-- C1: the claim says a non-zero exit status makes the task's status
`Failure` with error `ExitFailure(status)`.  The code does not: `Process::run`
returns `Ok(())` for any spawn+wait success without inspecting the exit code
(`src/process.rs` lines 75-80), and `run_task`'s `Ok` branch calls
`finish_task` (`src/server/run.rs` lines 81-83).  Evaluating the embedded
code at the failing input: the command task that exits with status 3 ends
with status `Success`, no stored error, and the recorded exit status 3 on
its process handle — contradicting the claim. -/
theorem c1_nonzero_exit_marks_success :
    startTask c1Store 0 =
      .ok ([(0, { plan := none, spec := .command ["/bin/sh", "-c", "exit 3"],
                  status := .running, running := none, notifyCount := 0,
                  error := none })],
           { id := 0, spec := .command ["/bin/sh", "-c", "exit 3"],
             status := .running }) ∧
    lookupTask (runTask c1Oracle 2
        [(0, { plan := none, spec := .command ["/bin/sh", "-c", "exit 3"],
               status := .running, running := none, notifyCount := 0,
               error := none })] 0) 0 =
      some { plan := none, spec := .command ["/bin/sh", "-c", "exit 3"],
             status := .success,
             running := some { output := [], status := some 3 },
             notifyCount := 1, error := none } :=
  ⟨rfl, rfl⟩

/-! Claim C2 -/

/-- The store of the failing input for claim C2: a `TaskGroup` parent (id 1)
with one command child (id 0) whose spawn will fail. -/
def c2Store : Store :=
  [(0, newServerTask none (.command ["/nonexistent"])),
   (1, newServerTask none (.taskGroup [0]))]

/-- OS behaviour for claim C2: every spawn fails. -/
def c2Oracle : Oracle := fun _ => .spawnFail "ENOENT"

/-- C2: the claim says a `TaskGroup` parent's status is `Success` iff every
child's status is `Success`, and that a failing child makes the parent
`Failure` with `TaskFailed` of that child.  The code does not: the
aggregation loop `if let Err(_) = handle.await` (`src/server/run.rs` lines
118-123) matches only the `JoinError` of the join itself and discards each
closure's inner `Result<(), Error>`, so child failures never reach the
parent.  Evaluating the embedded code at the failing input: the child ends
`Failure` yet the parent ends `Success` with no stored error — contradicting
the claim. -/
theorem c2_group_child_failure_parent_success :
    startTask c2Store 1 =
      .ok ([(0, newServerTask none (.command ["/nonexistent"])),
            (1, { plan := none, spec := .taskGroup [0], status := .waiting,
                  running := none, notifyCount := 0, error := none })],
           { id := 1, spec := .taskGroup [0], status := .waiting }) ∧
    lookupTask (runTask c2Oracle 5
        [(0, newServerTask none (.command ["/nonexistent"])),
         (1, { plan := none, spec := .taskGroup [0], status := .waiting,
               running := none, notifyCount := 0, error := none })] 1) 0 =
      some { plan := none, spec := .command ["/nonexistent"], status := .failure,
             running := some { output := [], status := none },
             notifyCount := 1, error := some (.commandFailed "ENOENT") } ∧
    lookupTask (runTask c2Oracle 5
        [(0, newServerTask none (.command ["/nonexistent"])),
         (1, { plan := none, spec := .taskGroup [0], status := .waiting,
               running := none, notifyCount := 0, error := none })] 1) 1 =
      some { plan := none, spec := .taskGroup [0], status := .success,
             running := none, notifyCount := 1, error := none } :=
  ⟨rfl, rfl, rfl⟩

/-! Claim C3 -/

/-- C3: for a `TaskList` task that is run (started from `Pending`, with
distinct pending command children), children are processed strictly in list
order, each waited on before the next starts: if every child's process
behaviour succeeds, every child ends `Success` and the parent ends `Success`;
if the list splits as `pre ++ cf :: post` with `pre` succeeding and `cf`
failing, then the `pre` children end `Success`, `cf` ends `Failure`, the
parent ends `Failure` with error `TaskFailed cf`, and every `post` child's
record is exactly as before the run (status still `Pending` — never
started). -/
theorem c3_tasklist_serial_semantics (oracle : Oracle) (s : Store) (pid : Nat)
    (cs : List Nat) (n : Nat) (pt : ServerTask)
    (hfuel : cs.length + 2 < n)
    (hl : lookupTask s pid = some pt) (hspec : pt.spec = .taskList cs)
    (hp : pt.status = .pending) (hnd : cs.Nodup) (hpid : pid ∉ cs)
    (hch : ∀ c ∈ cs, ∃ t args, lookupTask s c = some t ∧ t.status = .pending ∧
      t.spec = .command args) :
    startTask s pid =
      .ok (updateTask s pid (fun u => { u with status := startStatus u.spec }),
           { id := pid, spec := pt.spec, status := startStatus pt.spec }) ∧
    (((∀ c ∈ cs, behaviorFails (oracle c) = false) →
      lookupTask (runTask oracle n
          (updateTask s pid (fun u => { u with status := startStatus u.spec })) pid) pid =
        some { pt with status := .success, notifyCount := pt.notifyCount + 1 } ∧
      (∀ c ∈ cs, ∃ t, lookupTask (runTask oracle n
          (updateTask s pid (fun u => { u with status := startStatus u.spec })) pid) c =
        some t ∧ t.status = .success)) ∧
     (∀ pre cf post, cs = pre ++ cf :: post →
      (∀ c ∈ pre, behaviorFails (oracle c) = false) →
      behaviorFails (oracle cf) = true →
      lookupTask (runTask oracle n
          (updateTask s pid (fun u => { u with status := startStatus u.spec })) pid) pid =
        some { pt with status := .failure, error := some (.taskFailed cf),
                       notifyCount := pt.notifyCount + 1 } ∧
      (∀ c ∈ pre, ∃ t, lookupTask (runTask oracle n
          (updateTask s pid (fun u => { u with status := startStatus u.spec })) pid) c =
        some t ∧ t.status = .success) ∧
      (∃ t, lookupTask (runTask oracle n
          (updateTask s pid (fun u => { u with status := startStatus u.spec })) pid) cf =
        some t ∧ t.status = .failure) ∧
      (∀ c ∈ post, lookupTask (runTask oracle n
          (updateTask s pid (fun u => { u with status := startStatus u.spec })) pid) c =
        lookupTask s c))) := by
  have hstart : startTask s pid =
      .ok (updateTask s pid (fun u => { u with status := startStatus u.spec }),
           { id := pid, spec := pt.spec, status := startStatus pt.spec }) := by
    simp [startTask, hl, hp]
  refine ⟨hstart, ?_, ?_⟩
  all_goals
    set s1 := updateTask s pid (fun u => { u with status := startStatus u.spec }) with hs1
    have hl1 : lookupTask s1 pid = some { pt with status := startStatus pt.spec } := by
      rw [hs1, lookupTask_updateTask_self, hl]; rfl
    have hl1c : ∀ id, id ≠ pid → lookupTask s1 id = lookupTask s id := by
      intro id hne
      rw [hs1]; exact lookupTask_updateTask_ne s pid id _ hne
    obtain ⟨m, rfl⟩ : ∃ m, n = m + 1 := ⟨n - 1, by omega⟩
    have hred : runTask oracle (m + 1) s1 pid = exec oracle m s1 (.serial pid cs) :=
      exec_taskList oracle m hl1 (by simpa using hspec)
    have hch1 : ∀ c ∈ cs, ∃ t args, lookupTask s1 c = some t ∧
        t.status = .pending ∧ t.spec = .command args := by
      intro c hc
      obtain ⟨t, args, h1, h2, h3⟩ := hch c hc
      exact ⟨t, args, by rw [hl1c c (fun h => hpid (h ▸ hc))]; exact h1, h2, h3⟩
  · -- all children succeed
    intro hok
    have hres := serial_ok oracle pid cs m s1 (by omega) hnd hpid hch1 hok
    refine ⟨?_, ?_⟩
    · rw [hred, hres.1, hl1]
      simp [finishF, hspec, startStatus]
    · intro c hc
      obtain ⟨t, args, h1, _, _⟩ := hch1 c hc
      refine ⟨startedCmd (oracle c) t, ?_, ?_⟩
      · rw [hred, hres.2.1 c hc, h1]
        rfl
      · rw [startedCmd_status, hok c hc]
        simp
  · -- first failure at cf
    rintro pre cf post rfl hok hcf
    have hres := serial_fail oracle pid cf post hcf pre m s1
      (by simp at hfuel ⊢; omega) hnd hpid
      (fun c hc => hch1 c (by
        rcases List.mem_append.mp hc with h | h
        · exact List.mem_append.mpr (.inl h)
        · simp at h
          exact List.mem_append.mpr (.inr (by simp [h]))))
      hok
    have hcfmem : cf ∈ pre ++ cf :: post := List.mem_append.mpr (.inr (by simp))
    refine ⟨?_, ?_, ?_, ?_⟩
    · rw [hred, hres.1, hl1]
      simp [failF, hspec, startStatus]
    · intro c hc
      obtain ⟨t, args, h1, _, _⟩ := hch1 c (List.mem_append.mpr (.inl hc))
      refine ⟨startedCmd (oracle c) t, ?_, ?_⟩
      · rw [hred, hres.2.1 c hc, h1]
        rfl
      · rw [startedCmd_status, hok c hc]
        simp
    · obtain ⟨t, args, h1, _, _⟩ := hch1 cf hcfmem
      refine ⟨startedCmd (oracle cf) t, ?_, ?_⟩
      · rw [hred, hres.2.2.1, h1]
        rfl
      · rw [startedCmd_status, hcf]
        simp
    · intro c hc
      have hnodup := hnd
      rw [List.nodup_append] at hnodup
      have hcpre : c ∉ pre := fun h =>
        (hnodup.2.2 h) (by simp [hc])
      have hccf : c ≠ cf := by
        have := hnodup.2.1
        rw [List.nodup_cons] at this
        intro h
        exact this.1 (h ▸ hc)
      have hcpid : c ≠ pid := fun h =>
        hpid (h ▸ List.mem_append.mpr (.inr (by simp [hc])))
      rw [hred, hres.2.2.2 c hcpre hccf hcpid, hl1c c hcpid]

/-- The store of the C3 witness scenario: a `TaskList` parent (id 1) with
three pending command children 10, 11, 12; child 11's spawn will fail. -/
def c3Store : Store :=
  [(10, newServerTask none (.command ["true"])),
   (11, newServerTask none (.command ["/nonexistent"])),
   (12, newServerTask none (.command ["true"])),
   (1, newServerTask none (.taskList [10, 11, 12]))]

/-- OS behaviour of the C3 witness: child 11's spawn fails, others succeed. -/
def c3Oracle : Oracle := fun c => if c = 11 then .spawnFail "ENOENT" else .exits [] 0

/-- Witness for C3: the theorem applied at the concrete serial scenario. -/
theorem c3_tasklist_serial_semantics_witness :
    startTask c3Store 1 =
      .ok (updateTask c3Store 1 (fun u => { u with status := startStatus u.spec }),
           { id := 1, spec := .taskList [10, 11, 12], status := .waiting }) ∧
    (((∀ c ∈ [10, 11, 12], behaviorFails (c3Oracle c) = false) →
      lookupTask (runTask c3Oracle 9
          (updateTask c3Store 1 (fun u => { u with status := startStatus u.spec })) 1) 1 =
        some { plan := none, spec := .taskList [10, 11, 12], status := .success,
               running := none, notifyCount := 0 + 1, error := none } ∧
      (∀ c ∈ [10, 11, 12], ∃ t, lookupTask (runTask c3Oracle 9
          (updateTask c3Store 1 (fun u => { u with status := startStatus u.spec })) 1) c =
        some t ∧ t.status = .success)) ∧
     (∀ pre cf post, [10, 11, 12] = pre ++ cf :: post →
      (∀ c ∈ pre, behaviorFails (c3Oracle c) = false) →
      behaviorFails (c3Oracle cf) = true →
      lookupTask (runTask c3Oracle 9
          (updateTask c3Store 1 (fun u => { u with status := startStatus u.spec })) 1) 1 =
        some { plan := none, spec := .taskList [10, 11, 12], status := .failure,
               running := none, notifyCount := 0 + 1,
               error := some (.taskFailed cf) } ∧
      (∀ c ∈ pre, ∃ t, lookupTask (runTask c3Oracle 9
          (updateTask c3Store 1 (fun u => { u with status := startStatus u.spec })) 1) c =
        some t ∧ t.status = .success) ∧
      (∃ t, lookupTask (runTask c3Oracle 9
          (updateTask c3Store 1 (fun u => { u with status := startStatus u.spec })) 1) cf =
        some t ∧ t.status = .failure) ∧
      (∀ c ∈ post, lookupTask (runTask c3Oracle 9
          (updateTask c3Store 1 (fun u => { u with status := startStatus u.spec })) 1) c =
        lookupTask c3Store c))) :=
  c3_tasklist_serial_semantics c3Oracle c3Store 1 [10, 11, 12] 9 _
    (by decide) rfl rfl rfl (by decide) (by decide)
    (by
      intro c hc
      fin_cases hc
      · exact ⟨newServerTask none (.command ["true"]), ["true"], rfl, rfl, rfl⟩
      · exact ⟨newServerTask none (.command ["/nonexistent"]), ["/nonexistent"],
          rfl, rfl, rfl⟩
      · exact ⟨newServerTask none (.command ["true"]), ["true"], rfl, rfl, rfl⟩)

/-! Claim C4 -/

/-- A store holding one task that has already settled as `Success` and whose
`finished` signal has fired once. -/
def c4Store : Store :=
  [(5, { plan := none, spec := .command ["true"], status := .success,
         running := some { output := [], status := some 0 },
         notifyCount := 1, error := none })]

/-- C4 counterexample: the claim says that once a task is `Success` or
`Failure` its status never changes, the finished signal fires exactly once,
and a second `finish_task`/`fail_task` call is a no-op.  Evaluating the
embedded `fail_task` and `finish_task` on an already-settled task: a
`fail_task` call on the `Success` task flips its status to `Failure`, stores
an error and fires `finished` a second time, and a following `finish_task`
flips it back to `Success` and fires a third time — the second call is not a
no-op and the terminal status is not frozen by these functions. -/
theorem c4_counterexample :
    lookupTask (failTask c4Store 5 (.taskFailed 9)) 5 =
      some { plan := none, spec := .command ["true"], status := .failure,
             running := some { output := [], status := some 0 },
             notifyCount := 2, error := some (.taskFailed 9) } ∧
    lookupTask (finishTask (failTask c4Store 5 (.taskFailed 9)) 5) 5 =
      some { plan := none, spec := .command ["true"], status := .success,
             running := some { output := [], status := some 0 },
             notifyCount := 3, error := some (.taskFailed 9) } :=
  ⟨rfl, rfl⟩

/-- C4 amended: `finish_task` and `fail_task` are unconditional — whenever
the task exists (settled or not) `finish_task` sets status `Success` and
fires `finished` once more, and `fail_task` stores the error, sets status
`Failure` and fires `finished` once more; neither checks the current status,
so a repeated terminal call overwrites the status and error and signals
again rather than being a no-op. -/
theorem c4_terminal_calls_overwrite (s : Store) (id : Nat) (t : ServerTask)
    (err : Error) (h : lookupTask s id = some t) :
    lookupTask (finishTask s id) id =
      some { t with status := .success, notifyCount := t.notifyCount + 1 } ∧
    lookupTask (failTask s id err) id =
      some { t with status := .failure, error := some err,
                    notifyCount := t.notifyCount + 1 } := by
  constructor
  · rw [lookupTask_finishTask_self, h]; rfl
  · rw [lookupTask_failTask_self, h]; rfl

/-- Witness for C4 amended: applied to the settled task of `c4Store`. -/
theorem c4_terminal_calls_overwrite_witness :
    lookupTask (finishTask c4Store 5) 5 =
      some { plan := none, spec := .command ["true"], status := .success,
             running := some { output := [], status := some 0 },
             notifyCount := 1 + 1, error := none } ∧
    lookupTask (failTask c4Store 5 (.taskFailed 9)) 5 =
      some { plan := none, spec := .command ["true"], status := .failure,
             running := some { output := [], status := some 0 },
             notifyCount := 1 + 1, error := some (.taskFailed 9) } :=
  c4_terminal_calls_overwrite c4Store 5 _ (.taskFailed 9) rfl

/-! Claim C5 -/

/-- C5: `start_task` succeeds only on an existing `Pending` task: an unknown
id yields `TaskNotFound`; a non-`Pending` status yields `InvalidTaskState`;
on a `Pending` task it synchronously writes the dispatch status — `Running`
for a `Command` spec, `Waiting` for `TaskGroup` and `TaskList` — and returns
the new `TaskState`; and a second start of the same task then yields
`InvalidTaskState`. -/
theorem c5_start_task_gate (s : Store) (id : Nat) :
    (lookupTask s id = none → startTask s id = .error (.taskNotFound id)) ∧
    (∀ t, lookupTask s id = some t → t.status ≠ .pending →
      startTask s id = .error (.invalidTaskState id)) ∧
    (∀ t, lookupTask s id = some t → t.status = .pending →
      startTask s id =
        .ok (updateTask s id (fun u => { u with status := startStatus u.spec }),
             { id := id, spec := t.spec, status := startStatus t.spec }) ∧
      lookupTask (updateTask s id (fun u => { u with status := startStatus u.spec })) id =
        some { t with status := startStatus t.spec } ∧
      startTask (updateTask s id (fun u => { u with status := startStatus u.spec })) id =
        .error (.invalidTaskState id)) ∧
    (∀ args, startStatus (.command args) = .running) ∧
    (∀ ids, startStatus (.taskGroup ids) = .waiting) ∧
    (∀ ids, startStatus (.taskList ids) = .waiting) := by
  refine ⟨?_, ?_, ?_, fun _ => rfl, fun _ => rfl, fun _ => rfl⟩
  · intro h
    simp [startTask, h]
  · intro t h hnp
    simp [startTask, h, hnp]
  · intro t h hp
    have hl' : lookupTask (updateTask s id
        (fun u => { u with status := startStatus u.spec })) id =
        some { t with status := startStatus t.spec } := by
      rw [lookupTask_updateTask_self, h]; rfl
    refine ⟨by simp [startTask, h, hp], hl', ?_⟩
    have hnp : startStatus t.spec ≠ .pending := by
      cases t.spec <;> simp [startStatus]
    simp [startTask, hl', hnp]

/-- A store for the C5 witness: one pending command task. -/
def c5Store : Store := [(7, newServerTask none (.command ["true"]))]

/-- Witness for C5: applied to a pending command task, plus the two error
gates at an absent id and at the started (non-pending) task. -/
theorem c5_start_task_gate_witness :
    startTask c5Store 7 =
      .ok (updateTask c5Store 7 (fun u => { u with status := startStatus u.spec }),
           { id := 7, spec := .command ["true"], status := .running }) ∧
    lookupTask (updateTask c5Store 7 (fun u => { u with status := startStatus u.spec })) 7 =
      some { plan := none, spec := .command ["true"], status := .running,
             running := none, notifyCount := 0, error := none } ∧
    startTask (updateTask c5Store 7 (fun u => { u with status := startStatus u.spec })) 7 =
      .error (.invalidTaskState 7) ∧
    startTask c5Store 8 = .error (.taskNotFound 8) :=
  ⟨((c5_start_task_gate c5Store 7).2.2.1 _ rfl rfl).1,
   ((c5_start_task_gate c5Store 7).2.2.1 _ rfl rfl).2.1,
   ((c5_start_task_gate c5Store 7).2.2.1 _ rfl rfl).2.2,
   (c5_start_task_gate c5Store 8).1 rfl⟩

/-! Materializer lemmas -/

/-- The child ids referenced by a task spec. -/
def childIds : TaskSpec → List Nat
  | .command _ => []
  | .taskGroup ids => ids
  | .taskList ids => ids

/-- Every id present in the store is below the fresh-id counter (the model of
`Uuid::new_v4` never colliding with an existing id). -/
def FreshCtr (s : Store) (ctr : Nat) : Prop := ∀ e ∈ s, e.1 < ctr

theorem planSize_pos (p : PlanSpec) : 1 ≤ planSize p := by
  cases p <;> simp [planSize]

/-- Simultaneous structural induction over plan trees and lists of plan
trees, derived by strong induction on node count. -/
theorem planSpec_strong_ind (motive1 : PlanSpec → Prop)
    (motive2 : List PlanSpec → Prop)
    (hcmd : ∀ args, motive1 (.command args))
    (hgrp : ∀ ps, motive2 ps → motive1 (.taskGroup ps))
    (hlst : ∀ ps, motive2 ps → motive1 (.taskList ps))
    (hnil : motive2 [])
    (hcons : ∀ p ps, motive1 p → motive2 ps → motive2 (p :: ps)) :
    (∀ p, motive1 p) ∧ (∀ ps, motive2 ps) := by
  have key : ∀ N, (∀ p, planSize p ≤ N → motive1 p) ∧
      (∀ ps, planListSize ps ≤ N → motive2 ps) := by
    intro N
    induction N with
    | zero =>
      constructor
      · intro p hp
        exact absurd (le_trans (planSize_pos p) hp) (by simp)
      · intro ps hps
        cases ps with
        | nil => exact hnil
        | cons p ps =>
          simp only [planListSize] at hps
          have := planSize_pos p
          omega
    | succ N ih =>
      have h1 : ∀ p, planSize p ≤ N + 1 → motive1 p := by
        intro p hp
        cases p with
        | command args => exact hcmd args
        | taskGroup ps =>
          exact hgrp ps (ih.2 ps (by simp [planSize] at hp; omega))
        | taskList ps =>
          exact hlst ps (ih.2 ps (by simp [planSize] at hp; omega))
      have h2 : ∀ ps, planListSize ps ≤ N + 1 → motive2 ps := by
        intro ps
        induction ps with
        | nil => intro _; exact hnil
        | cons p ps ihps =>
          intro h
          simp only [planListSize] at h
          have hp1 : 1 ≤ planSize p := planSize_pos p
          exact hcons p ps (h1 p (by omega)) (ihps (by omega))
      exact ⟨h1, h2⟩
  constructor
  · intro p
    exact (key (planSize p)).1 p le_rfl
  · intro ps
    exact (key (planListSize ps)).2 ps le_rfl

/-- `Mirrors` is preserved by appending entries to the store (lookups of
existing ids are unchanged by an append). -/
theorem mirrors_append_all :
    (∀ p, ∀ s u id, Mirrors s id p → Mirrors (s ++ u) id p) ∧
    (∀ ps, ∀ s u ids, MirrorsChildren s ids ps → MirrorsChildren (s ++ u) ids ps) := by
  refine planSpec_strong_ind _ _ ?_ ?_ ?_ ?_ ?_
  · intro args s u id h
    obtain ⟨t, hl, hs⟩ := h
    exact ⟨t, lookupTask_append_of_some hl u, hs⟩
  · intro ps ih s u id h
    obtain ⟨t, ids, hl, hs, hc⟩ := h
    exact ⟨t, ids, lookupTask_append_of_some hl u, hs, ih s u ids hc⟩
  · intro ps ih s u id h
    obtain ⟨t, ids, hl, hs, hc⟩ := h
    exact ⟨t, ids, lookupTask_append_of_some hl u, hs, ih s u ids hc⟩
  · intro s u ids h
    cases ids with
    | nil => exact h
    | cons i ids => exact absurd h (by simp [MirrorsChildren])
  · intro p ps ih1 ih2 s u ids h
    cases ids with
    | nil => exact absurd h (by simp [MirrorsChildren])
    | cons i ids =>
      simp only [MirrorsChildren] at h ⊢
      exact ⟨ih1 s u i h.1, ih2 s u ids h.2⟩

theorem mirrors_append {s u : Store} {id : Nat} {p : PlanSpec}
    (h : Mirrors s id p) : Mirrors (s ++ u) id p :=
  mirrors_append_all.1 p s u id h

theorem mirrorsChildren_append {s u : Store} {ids : List Nat} {ps : List PlanSpec}
    (h : MirrorsChildren s ids ps) : MirrorsChildren (s ++ u) ids ps :=
  mirrors_append_all.2 ps s u ids h

theorem matTask_command_eq (plan : TaskPlan) (args : List String) (ctr : Nat) (s : Store) :
    matTask plan (.command args) ctr s =
      ({ id := ctr, plan := some plan, spec := .command args, status := .pending },
       ctr + 1, s ++ [(ctr, newServerTask (some plan) (.command args))]) := by
  simp [matTask]

theorem matTask_group_eq (plan : TaskPlan) (ps : List PlanSpec) (ctr : Nat) (s : Store) :
    matTask plan (.taskGroup ps) ctr s =
      ({ id := (matChildren plan ps ctr s).2.1, plan := some plan,
         spec := .taskGroup (matChildren plan ps ctr s).1, status := .pending },
       (matChildren plan ps ctr s).2.1 + 1,
       (matChildren plan ps ctr s).2.2 ++
         [((matChildren plan ps ctr s).2.1,
           newServerTask (some plan) (.taskGroup (matChildren plan ps ctr s).1))]) := by
  simp [matTask]

theorem matTask_list_eq (plan : TaskPlan) (ps : List PlanSpec) (ctr : Nat) (s : Store) :
    matTask plan (.taskList ps) ctr s =
      ({ id := (matChildren plan ps ctr s).2.1, plan := some plan,
         spec := .taskList (matChildren plan ps ctr s).1, status := .pending },
       (matChildren plan ps ctr s).2.1 + 1,
       (matChildren plan ps ctr s).2.2 ++
         [((matChildren plan ps ctr s).2.1,
           newServerTask (some plan) (.taskList (matChildren plan ps ctr s).1))]) := by
  simp [matTask]

theorem matChildren_nil_eq (plan : TaskPlan) (ctr : Nat) (s : Store) :
    matChildren plan [] ctr s = ([], ctr, s) := by
  simp [matChildren]

theorem matChildren_cons_eq (plan : TaskPlan) (p : PlanSpec) (ps : List PlanSpec)
    (ctr : Nat) (s : Store) :
    matChildren plan (p :: ps) ctr s =
      ((matTask plan p ctr s).1.id ::
         (matChildren plan ps (matTask plan p ctr s).2.1 (matTask plan p ctr s).2.2).1,
       (matChildren plan ps (matTask plan p ctr s).2.1 (matTask plan p ctr s).2.2).2.1,
       (matChildren plan ps (matTask plan p ctr s).2.1 (matTask plan p ctr s).2.2).2.2) := by
  simp [matChildren]

/-- Entry-level facts of a freshly materialized record. -/
def MatEntryProps (plan : TaskPlan) (e : Nat × ServerTask) : Prop :=
  e.2.plan = some plan ∧ e.2.status = .pending ∧ e.2.running = none ∧
    e.2.error = none ∧ e.2.notifyCount = 0

/-- Master lemma for the plan materializer: `matTask` appends exactly one
entry per plan node (ids the consecutive fresh range, in registration order,
parents after all their children), every entry is pending with the plan
reference attached, each composite entry references only earlier fresh ids,
and — when the counter is fresh for the store — the registered tree mirrors
the plan tree shape. -/
theorem matTask_master :
    (∀ p, ∀ (plan : TaskPlan) (ctr : Nat) (s : Store), ∃ new,
      (matTask plan p ctr s).2.2 = s ++ new ∧
      (matTask plan p ctr s).2.1 = ctr + planSize p ∧
      (matTask plan p ctr s).1.id + 1 = ctr + planSize p ∧
      (matTask plan p ctr s).1.plan = some plan ∧
      (matTask plan p ctr s).1.status = .pending ∧
      new.map Prod.fst = List.range' ctr (planSize p) ∧
      (∀ e ∈ new, MatEntryProps plan e) ∧
      (∀ e ∈ new, ∀ c ∈ childIds e.2.spec, ctr ≤ c ∧ c < e.1) ∧
      (FreshCtr s ctr →
        lookupTask (s ++ new) (matTask plan p ctr s).1.id =
          some (newServerTask (some plan) (matTask plan p ctr s).1.spec) ∧
        Mirrors (s ++ new) (matTask plan p ctr s).1.id p)) ∧
    (∀ ps, ∀ (plan : TaskPlan) (ctr : Nat) (s : Store), ∃ new,
      (matChildren plan ps ctr s).2.2 = s ++ new ∧
      (matChildren plan ps ctr s).2.1 = ctr + planListSize ps ∧
      new.map Prod.fst = List.range' ctr (planListSize ps) ∧
      (∀ e ∈ new, MatEntryProps plan e) ∧
      (∀ e ∈ new, ∀ c ∈ childIds e.2.spec, ctr ≤ c ∧ c < e.1) ∧
      (∀ i ∈ (matChildren plan ps ctr s).1, ctr ≤ i ∧ i < ctr + planListSize ps) ∧
      (FreshCtr s ctr →
        MirrorsChildren (s ++ new) (matChildren plan ps ctr s).1 ps)) := by
  refine planSpec_strong_ind _ _ ?_ ?_ ?_ ?_ ?_
  · -- command leaf
    intro args plan ctr s
    refine ⟨[(ctr, newServerTask (some plan) (.command args))],
      by simp only [matTask_command_eq], by simp only [matTask_command_eq, planSize],
      by simp only [matTask_command_eq, planSize], by simp only [matTask_command_eq],
      by simp only [matTask_command_eq], by simp [planSize, List.range'],
      by simp [MatEntryProps, newServerTask],
      by simp [newServerTask, childIds], ?_⟩
    intro hf
    have hnone : lookupTask s ctr = none :=
      lookupTask_eq_none s ctr (fun e he => Nat.ne_of_lt (hf e he))
    have hlook : lookupTask (s ++ [(ctr, newServerTask (some plan) (.command args))]) ctr =
        some (newServerTask (some plan) (.command args)) := by
      rw [lookupTask_append_of_none hnone]
      simp [lookupTask]
    constructor
    · simp only [matTask_command_eq]
      exact hlook
    · simp only [matTask_command_eq, Mirrors]
      exact ⟨newServerTask (some plan) (.command args), hlook, rfl⟩
  · -- parallel group
    intro ps ih plan ctr s
    obtain ⟨newC, hst, hctr, hmap, hprops, hbound, hids, hmir⟩ := ih plan ctr s
    refine ⟨newC ++ [((matChildren plan ps ctr s).2.1,
        newServerTask (some plan) (.taskGroup (matChildren plan ps ctr s).1))],
      ?_, ?_, ?_, ?_, ?_, ?_, ?_, ?_, ?_⟩
    · simp only [matTask_group_eq]
      rw [hst, List.append_assoc]
    · simp only [matTask_group_eq, planSize]
      rw [hctr]
      omega
    · simp only [matTask_group_eq, planSize]
      rw [hctr]
      omega
    · simp only [matTask_group_eq]
    · simp only [matTask_group_eq]
    · rw [List.map_append, hmap]
      simp only [planSize, List.map_cons, List.map_nil, hctr]
      rw [List.range'_concat]
      simp
    · intro e he
      rcases List.mem_append.mp he with h | h
      · exact hprops e h
      · simp only [List.mem_singleton] at h
        subst h
        simp [MatEntryProps, newServerTask]
    · intro e he c hc
      rcases List.mem_append.mp he with h | h
      · exact hbound e h c hc
      · simp only [List.mem_singleton] at h
        subst h
        simp only [newServerTask, childIds] at hc
        have hq := hids c hc
        refine ⟨hq.1, ?_⟩
        show c < (matChildren plan ps ctr s).2.1
        rw [hctr]
        exact hq.2
    · intro hf
      have hfC : ∀ e ∈ s ++ newC, e.1 ≠ (matChildren plan ps ctr s).2.1 := by
        intro e he
        rcases List.mem_append.mp he with h | h
        · have := hf e h
          rw [hctr]
          omega
        · have hm : e.1 ∈ List.range' ctr (planListSize ps) := by
            rw [← hmap]
            exact List.mem_map_of_mem Prod.fst h
          rw [List.mem_range'_1] at hm
          rw [hctr]
          omega
      have hnone : lookupTask (s ++ newC) (matChildren plan ps ctr s).2.1 = none :=
        lookupTask_eq_none _ _ hfC
      have hlook : lookupTask (s ++ (newC ++ [((matChildren plan ps ctr s).2.1,
          newServerTask (some plan) (.taskGroup (matChildren plan ps ctr s).1))]))
          (matChildren plan ps ctr s).2.1 =
          some (newServerTask (some plan) (.taskGroup (matChildren plan ps ctr s).1)) := by
        rw [← List.append_assoc, lookupTask_append_of_none hnone]
        simp [lookupTask]
      have hmc : MirrorsChildren (s ++ (newC ++ [((matChildren plan ps ctr s).2.1,
          newServerTask (some plan) (.taskGroup (matChildren plan ps ctr s).1))]))
          (matChildren plan ps ctr s).1 ps := by
        rw [← List.append_assoc]
        exact mirrorsChildren_append (hst ▸ hmir hf)
      constructor
      · simp only [matTask_group_eq]
        exact hlook
      · simp only [matTask_group_eq, Mirrors]
        exact ⟨newServerTask (some plan) (.taskGroup (matChildren plan ps ctr s).1),
          (matChildren plan ps ctr s).1, hlook, rfl, hmc⟩
  · -- serial list
    intro ps ih plan ctr s
    obtain ⟨newC, hst, hctr, hmap, hprops, hbound, hids, hmir⟩ := ih plan ctr s
    refine ⟨newC ++ [((matChildren plan ps ctr s).2.1,
        newServerTask (some plan) (.taskList (matChildren plan ps ctr s).1))],
      ?_, ?_, ?_, ?_, ?_, ?_, ?_, ?_, ?_⟩
    · simp only [matTask_list_eq]
      rw [hst, List.append_assoc]
    · simp only [matTask_list_eq, planSize]
      rw [hctr]
      omega
    · simp only [matTask_list_eq, planSize]
      rw [hctr]
      omega
    · simp only [matTask_list_eq]
    · simp only [matTask_list_eq]
    · rw [List.map_append, hmap]
      simp only [planSize, List.map_cons, List.map_nil, hctr]
      rw [List.range'_concat]
      simp
    · intro e he
      rcases List.mem_append.mp he with h | h
      · exact hprops e h
      · simp only [List.mem_singleton] at h
        subst h
        simp [MatEntryProps, newServerTask]
    · intro e he c hc
      rcases List.mem_append.mp he with h | h
      · exact hbound e h c hc
      · simp only [List.mem_singleton] at h
        subst h
        simp only [newServerTask, childIds] at hc
        have hq := hids c hc
        refine ⟨hq.1, ?_⟩
        show c < (matChildren plan ps ctr s).2.1
        rw [hctr]
        exact hq.2
    · intro hf
      have hfC : ∀ e ∈ s ++ newC, e.1 ≠ (matChildren plan ps ctr s).2.1 := by
        intro e he
        rcases List.mem_append.mp he with h | h
        · have := hf e h
          rw [hctr]
          omega
        · have hm : e.1 ∈ List.range' ctr (planListSize ps) := by
            rw [← hmap]
            exact List.mem_map_of_mem Prod.fst h
          rw [List.mem_range'_1] at hm
          rw [hctr]
          omega
      have hnone : lookupTask (s ++ newC) (matChildren plan ps ctr s).2.1 = none :=
        lookupTask_eq_none _ _ hfC
      have hlook : lookupTask (s ++ (newC ++ [((matChildren plan ps ctr s).2.1,
          newServerTask (some plan) (.taskList (matChildren plan ps ctr s).1))]))
          (matChildren plan ps ctr s).2.1 =
          some (newServerTask (some plan) (.taskList (matChildren plan ps ctr s).1)) := by
        rw [← List.append_assoc, lookupTask_append_of_none hnone]
        simp [lookupTask]
      have hmc : MirrorsChildren (s ++ (newC ++ [((matChildren plan ps ctr s).2.1,
          newServerTask (some plan) (.taskList (matChildren plan ps ctr s).1))]))
          (matChildren plan ps ctr s).1 ps := by
        rw [← List.append_assoc]
        exact mirrorsChildren_append (hst ▸ hmir hf)
      constructor
      · simp only [matTask_list_eq]
        exact hlook
      · simp only [matTask_list_eq, Mirrors]
        exact ⟨newServerTask (some plan) (.taskList (matChildren plan ps ctr s).1),
          (matChildren plan ps ctr s).1, hlook, rfl, hmc⟩
  · -- empty child list
    intro plan ctr s
    refine ⟨[], by simp [matChildren_nil_eq], by simp [matChildren_nil_eq, planListSize],
      by simp [planListSize], by simp, by simp, by simp [matChildren_nil_eq], ?_⟩
    intro _
    rw [matChildren_nil_eq]
    simp [MirrorsChildren]
  · -- child list cons
    intro p ps ih1 ih2 plan ctr s
    obtain ⟨new1, h1st, h1ctr, h1root, _, _, h1map, h1props, h1bound, h1mir⟩ :=
      ih1 plan ctr s
    obtain ⟨new2, h2st, h2ctr, h2map, h2props, h2bound, h2ids, h2mir⟩ :=
      ih2 plan (matTask plan p ctr s).2.1 (matTask plan p ctr s).2.2
    refine ⟨new1 ++ new2, ?_, ?_, ?_, ?_, ?_, ?_, ?_⟩
    · simp only [matChildren_cons_eq]
      rw [h2st, h1st, List.append_assoc]
    · simp only [matChildren_cons_eq, planListSize]
      rw [h2ctr, h1ctr]
      omega
    · rw [List.map_append, h1map, h2map, h1ctr]
      rw [List.range'_append_1]
      simp only [planListSize]
      congr 1
      omega
    · intro e he
      rcases List.mem_append.mp he with h | h
      · exact h1props e h
      · exact h2props e h
    · intro e he c hc
      rcases List.mem_append.mp he with h | h
      · exact h1bound e h c hc
      · have := h2bound e h c hc
        rw [h1ctr] at this
        omega
    · simp only [matChildren_cons_eq, planListSize]
      intro i hi
      rcases List.mem_cons.mp hi with h | h
      · subst h
        have hpos := planSize_pos p
        omega
      · have := h2ids i h
        rw [h1ctr] at this
        omega
    · intro hf
      have hf1 : FreshCtr (matTask plan p ctr s).2.2 (matTask plan p ctr s).2.1 := by
        intro e he
        rw [h1st] at he
        rcases List.mem_append.mp he with h | h
        · have := hf e h
          have hpos := planSize_pos p
          rw [h1ctr]
          omega
        · have hm : e.1 ∈ List.range' ctr (planSize p) := by
            rw [← h1map]
            exact List.mem_map_of_mem Prod.fst h
          rw [List.mem_range'_1] at hm
          rw [h1ctr]
          omega
      simp only [matChildren_cons_eq, MirrorsChildren]
      have hmir1 : Mirrors (s ++ (new1 ++ new2)) (matTask plan p ctr s).1.id p := by
        rw [← List.append_assoc]
        exact mirrors_append ((h1mir hf).2)
      have hmir2 := h2mir hf1
      rw [h1st, List.append_assoc] at hmir2
      rw [h1st]
      exact ⟨hmir1, hmir2⟩

/-! Claim C6 -/

/-- C6: materializing a `PlanSpec` tree (with a fresh id counter) registers
exactly one task per node of the tree: the store grows by an appended block
of `planSize p` entries whose ids are the fresh consecutive range in
registration order, every entry is `Pending` with the plan reference
attached (no process handle, no error, unfired `finished`), the registered
tree mirrors the plan tree's shape (each composite task's spec lists its
children's task ids in the original order — `Mirrors`), and registration is
leaves-last: each composite entry references only ids that are strictly
below its own id (hence registered strictly earlier in the id-ascending
block), and each referenced child id is itself registered in the block. -/
theorem c6_materialize_plan (plan : TaskPlan) (p : PlanSpec) (ctr : Nat) (s : Store)
    (hf : FreshCtr s ctr) :
    ∃ new, (matTask plan p ctr s).2.2 = s ++ new ∧
      new.length = planSize p ∧
      new.map Prod.fst = List.range' ctr (planSize p) ∧
      (∀ e ∈ new, e.2.status = .pending ∧ e.2.plan = some plan ∧
        e.2.running = none ∧ e.2.error = none ∧ e.2.notifyCount = 0) ∧
      (∀ e ∈ new, ∀ c ∈ childIds e.2.spec, ctr ≤ c ∧ c < e.1) ∧
      (∀ e ∈ new, ∀ c ∈ childIds e.2.spec, ∃ e' ∈ new, e'.1 = c) ∧
      (matTask plan p ctr s).1.id + 1 = ctr + planSize p ∧
      (matTask plan p ctr s).1.plan = some plan ∧
      (matTask plan p ctr s).1.status = .pending ∧
      lookupTask (s ++ new) (matTask plan p ctr s).1.id =
        some (newServerTask (some plan) (matTask plan p ctr s).1.spec) ∧
      Mirrors (s ++ new) (matTask plan p ctr s).1.id p := by
  obtain ⟨new, hst, _, hroot, hplan, hstat, hmap, hprops, hbound, hfresh⟩ :=
    matTask_master.1 p plan ctr s
  refine ⟨new, hst, ?_, hmap, ?_, hbound, ?_, hroot, hplan, hstat,
    (hfresh hf).1, (hfresh hf).2⟩
  · have := congrArg List.length hmap
    simpa using this
  · intro e he
    obtain ⟨h1, h2, h3, h4, h5⟩ := hprops e he
    exact ⟨h2, h1, h3, h4, h5⟩
  · intro e he c hc
    have hb := hbound e he c hc
    have hmem : c ∈ new.map Prod.fst := by
      rw [hmap, List.mem_range'_1]
      have he1 : e.1 ∈ new.map Prod.fst := List.mem_map_of_mem Prod.fst he
      rw [hmap, List.mem_range'_1] at he1
      omega
    obtain ⟨e', he', hfst⟩ := List.mem_map.mp hmem
    exact ⟨e', he', hfst⟩

/-- The concrete plan of the C6 witness: a serial list of a command and a
parallel group holding one command. -/
def c6Plan : PlanSpec :=
  .taskList [.command ["echo", "hi"], .taskGroup [.command ["true"]]]

/-- Witness for C6: the theorem applied to `c6Plan` on the empty store with
counter 0. -/
theorem c6_materialize_plan_witness :
    ∃ new, (matTask { id := 42, version := 0 } c6Plan 0 []).2.2 = [] ++ new ∧
      new.length = planSize c6Plan ∧
      new.map Prod.fst = List.range' 0 (planSize c6Plan) ∧
      (∀ e ∈ new, e.2.status = .pending ∧ e.2.plan = some { id := 42, version := 0 } ∧
        e.2.running = none ∧ e.2.error = none ∧ e.2.notifyCount = 0) ∧
      (∀ e ∈ new, ∀ c ∈ childIds e.2.spec, 0 ≤ c ∧ c < e.1) ∧
      (∀ e ∈ new, ∀ c ∈ childIds e.2.spec, ∃ e' ∈ new, e'.1 = c) ∧
      (matTask { id := 42, version := 0 } c6Plan 0 []).1.id + 1 = 0 + planSize c6Plan ∧
      (matTask { id := 42, version := 0 } c6Plan 0 []).1.plan =
        some { id := 42, version := 0 } ∧
      (matTask { id := 42, version := 0 } c6Plan 0 []).1.status = .pending ∧
      lookupTask ([] ++ new) (matTask { id := 42, version := 0 } c6Plan 0 []).1.id =
        some (newServerTask (some { id := 42, version := 0 })
          (matTask { id := 42, version := 0 } c6Plan 0 []).1.spec) ∧
      Mirrors ([] ++ new) (matTask { id := 42, version := 0 } c6Plan 0 []).1.id c6Plan :=
  c6_materialize_plan { id := 42, version := 0 } c6Plan 0 []
    (fun e he => absurd he (List.not_mem_nil e))

/-! Output-stream lemmas -/

theorem pollNext_eos {st : ProcessState} {i j : Nat}
    (h : pollNext st i = (.eos, j)) :
    st.status.isSome ∧ st.output.length ≤ i ∧ j = i := by
  unfold pollNext at h
  cases hg : st.output.get? i with
  | some o => rw [hg] at h; exact absurd h (by simp)
  | none =>
    rw [hg] at h
    by_cases hs : st.status.isSome
    · rw [if_pos hs] at h
      exact ⟨hs, List.get?_eq_none.mp hg, (Prod.mk.injEq _ _ _ _).mp h |>.2.symm⟩
    · rw [if_neg hs] at h
      exact absurd h (by simp)

/-- Each consumer's run yields exactly the contiguous slice of the reference
buffer between its starting and final cursor: no line skipped, none
duplicated, in buffer order. -/
theorem consumeFrom_slice (B : List Output) :
    ∀ (sts : List ProcessState) (i : Nat), (∀ st ∈ sts, AgreesWith st B) →
      i ≤ (consumeFrom sts i).2 ∧
      (consumeFrom sts i).1 = (B.take (consumeFrom sts i).2).drop i := by
  intro sts
  induction sts with
  | nil =>
    intro i _
    refine ⟨le_rfl, ?_⟩
    simp only [consumeFrom]
    rw [List.drop_eq_nil_of_le (by simp [List.length_take])]
  | cons st sts ih =>
    intro i hag
    have hst : AgreesWith st B := hag st (by simp)
    have hrest : ∀ st' ∈ sts, AgreesWith st' B := fun st' h => hag st' (by simp [h])
    cases hp : pollNext st i with
    | mk r i' =>
      cases r with
      | yield o =>
        have hyield : st.output.get? i = some o ∧ i' = i + 1 := by
          unfold pollNext at hp
          cases hg : st.output.get? i with
          | some o' =>
            rw [hg] at hp
            have := (Prod.mk.injEq _ _ _ _).mp hp
            exact ⟨by rw [(PollResult.yield.injEq _ _).mp this.1], this.2.symm⟩
          | none =>
            rw [hg] at hp
            by_cases hs : st.status.isSome <;> simp [hs] at hp
        have hB : B.get? i = some o := hst i o hyield.1
        have hiB : i < B.length := (List.get?_eq_some.mp hB).1
        have ihr := ih (i + 1) hrest
        have hcons : consumeFrom (st :: sts) i =
            ((consumeFrom sts (i + 1)).1.cons o, (consumeFrom sts (i + 1)).2) := by
          simp only [consumeFrom, hp, hyield.2]
        rw [hcons]
        refine ⟨by simpa using le_trans (Nat.le_succ i) ihr.1, ?_⟩
        have hlt : i < (B.take (consumeFrom sts (i + 1)).2).length := by
          simp only [List.length_take]
          have := ihr.1
          omega
        have hgetTake : (B.take (consumeFrom sts (i + 1)).2).get? i = some o := by
          rw [List.get?_take (by omega : i < (consumeFrom sts (i + 1)).2)]
          exact hB
        have hdrop : (B.take (consumeFrom sts (i + 1)).2).drop i =
            o :: (B.take (consumeFrom sts (i + 1)).2).drop (i + 1) := by
          rw [List.drop_eq_getElem_cons hlt]
          congr 1
          rw [List.getElem_eq_iff, ← List.get?_eq_getElem?]
          exact hgetTake
        rw [hdrop]
        exact congrArg (List.cons o) ihr.2
      | eos =>
        have hcons : consumeFrom (st :: sts) i = ([], i) := by
          simp only [consumeFrom, hp]
        rw [hcons]
        exact ⟨le_rfl, by rw [List.drop_eq_nil_of_le (by simp [List.length_take])]⟩
      | pending =>
        have hcons : consumeFrom (st :: sts) i = consumeFrom sts i := by
          simp only [consumeFrom, hp]
        rw [hcons]
        exact ih i hrest

/-- A snapshot whose buffer is a take-prefix of the reference buffer agrees
with it (the append-only buffer only ever grows at the tail, so every
snapshot of a process whose final buffer is `B` is of this form). -/
theorem agreesWith_of_take (st : ProcessState) (B : List Output) (n : Nat)
    (h : st.output = B.take n) : AgreesWith st B := by
  intro i o hg
  rw [h] at hg
  have hi : i < (B.take n).length := (List.get?_eq_some.mp hg).1
  rw [List.get?_take (by simp [List.length_take] at hi; omega)] at hg
  exact hg

/-! Claim C7 -/

/-- C7: an `OutputStream` consumer polling against snapshots of the process
buffer (each snapshot agreeing with the reference buffer `B`, as append-only
growth guarantees): from cursor 0 its yields are exactly `B.take k` where `k`
is its final cursor — a prefix of the buffer in buffer order; from any
cursor `i` its yields are the contiguous slice between its cursors (no line
skipped or duplicated, each consumer advancing only its own cursor);
end-of-stream is signalled only when the exit status is recorded and the
cursor has reached the end of the snapshot's buffer; consequently any two
consumers' yield sequences agree on their common prefix. -/
theorem c7_output_stream_prefix (B : List Output) (sts1 sts2 : List ProcessState)
    (h1 : ∀ st ∈ sts1, AgreesWith st B) (h2 : ∀ st ∈ sts2, AgreesWith st B) :
    (consumeFrom sts1 0).1 = B.take (consumeFrom sts1 0).2 ∧
    (consumeFrom sts2 0).1 = B.take (consumeFrom sts2 0).2 ∧
    (∀ (sts : List ProcessState) (i : Nat), (∀ st ∈ sts, AgreesWith st B) →
      i ≤ (consumeFrom sts i).2 ∧
      (consumeFrom sts i).1 = (B.take (consumeFrom sts i).2).drop i) ∧
    (∀ (st : ProcessState) (i j : Nat), pollNext st i = (.eos, j) →
      st.status.isSome ∧ st.output.length ≤ i ∧ j = i) ∧
    ((consumeFrom sts1 0).2 ≤ (consumeFrom sts2 0).2 →
      (consumeFrom sts1 0).1 = (consumeFrom sts2 0).1.take (consumeFrom sts1 0).2) := by
  have hs1 := consumeFrom_slice B sts1 0 h1
  have hs2 := consumeFrom_slice B sts2 0 h2
  have hp1 : (consumeFrom sts1 0).1 = B.take (consumeFrom sts1 0).2 := by
    rw [hs1.2, List.drop_zero]
  have hp2 : (consumeFrom sts2 0).1 = B.take (consumeFrom sts2 0).2 := by
    rw [hs2.2, List.drop_zero]
  refine ⟨hp1, hp2, fun sts i hag => consumeFrom_slice B sts i hag,
    fun st i j h => pollNext_eos h, ?_⟩
  intro hle
  rw [hp1, hp2, List.take_take, Nat.min_eq_left hle]

/-- Reference buffer for the C7 witness. -/
def c7Buf : List Output := [.stdout "a", .stderr "b"]

/-- Snapshot sequence of the first C7 consumer: sees one line, then the full
buffer with the process exited, then polls end-of-stream. -/
def c7Snaps1 : List ProcessState :=
  [{ output := [.stdout "a"], status := none },
   { output := [.stdout "a", .stderr "b"], status := some 0 },
   { output := [.stdout "a", .stderr "b"], status := some 0 },
   { output := [.stdout "a", .stderr "b"], status := some 0 }]

/-- Snapshot sequence of the second C7 consumer: starts later and only ever
sees the first line before it stops polling. -/
def c7Snaps2 : List ProcessState :=
  [{ output := [.stdout "a"], status := none },
   { output := [.stdout "a"], status := none }]

/-- Witness for C7: the theorem applied at the concrete buffer and snapshot
sequences. -/
theorem c7_output_stream_prefix_witness :
    (consumeFrom c7Snaps2 0).1 = c7Buf.take (consumeFrom c7Snaps2 0).2 ∧
    (consumeFrom c7Snaps1 0).1 = c7Buf.take (consumeFrom c7Snaps1 0).2 ∧
    (∀ (sts : List ProcessState) (i : Nat), (∀ st ∈ sts, AgreesWith st c7Buf) →
      i ≤ (consumeFrom sts i).2 ∧
      (consumeFrom sts i).1 = (c7Buf.take (consumeFrom sts i).2).drop i) ∧
    (∀ (st : ProcessState) (i j : Nat), pollNext st i = (.eos, j) →
      st.status.isSome ∧ st.output.length ≤ i ∧ j = i) ∧
    ((consumeFrom c7Snaps2 0).2 ≤ (consumeFrom c7Snaps1 0).2 →
      (consumeFrom c7Snaps2 0).1 = (consumeFrom c7Snaps1 0).1.take (consumeFrom c7Snaps2 0).2) := by
  have h1 : ∀ st ∈ c7Snaps1, AgreesWith st c7Buf := by
    intro st hst
    fin_cases hst
    · exact agreesWith_of_take _ c7Buf 1 rfl
    · exact agreesWith_of_take _ c7Buf 2 rfl
    · exact agreesWith_of_take _ c7Buf 2 rfl
    · exact agreesWith_of_take _ c7Buf 2 rfl
  have h2 : ∀ st ∈ c7Snaps2, AgreesWith st c7Buf := by
    intro st hst
    fin_cases hst
    · exact agreesWith_of_take _ c7Buf 1 rfl
    · exact agreesWith_of_take _ c7Buf 1 rfl
  have h := c7_output_stream_prefix c7Buf c7Snaps2 c7Snaps1 h2 h1
  exact h

/-! Claim C8 -/

theorem lookupPlan_append (s u : PlanStore) (id : Nat) :
    lookupPlan (s ++ u) id =
      match lookupPlan s id with
      | some p => some p
      | none => lookupPlan u id := by
  induction s with
  | nil => simp [lookupPlan]
  | cons e s ih =>
    by_cases h : e.1 = id <;> simp [lookupPlan, h, ih]

/-- The stored plan of the C8 scenario. -/
def c8PlanRec : Plan := { id := 7, spec := .command ["true"], version := 0 }

/-- A server state holding one stored plan and no tasks. -/
def c8State : ServerState := { plans := [(7, c8PlanRec)], tasks := [] }

/-- OS behaviour for the C8 scenario (irrelevant: no command runs). -/
def c8Oracle : Oracle := fun _ => .exits [] 0

/-- C8 counterexample: the claim says updating a plan replaces its spec and
increments its version by exactly 1.  The wired server has no update
operation at all: the route table of `serve` (`src/server.rs` lines 88-95)
maps no route to an update handler (the `update_plan` handler exists only in
the unwired module `src/egg/server/handlers.rs`), and the only mutating
route under `/plan/{id}` — POST, the materializer — leaves the stored
plan's spec and version untouched: after it runs, GET still returns version
0 and the original spec.  So no request can ever replace a stored spec or
increment a version. -/
theorem c8_counterexample :
    serveRoutes.all (fun r => !(r.2.2 == HandlerTag.updatePlanH)) = true ∧
    serveRoutes.length = 9 ∧
    (handleRequest c8Oracle 5 100 (.materializePlanReq 7) c8State).plans =
      c8State.plans ∧
    getPlan (handleRequest c8Oracle 5 100 (.materializePlanReq 7) c8State).plans 7 =
      .ok { id := 7, spec := .command ["true"], version := 0 } ∧
    createPlan [] 7 (.command ["true"]) = ([(7, c8PlanRec)], c8PlanRec) :=
  ⟨rfl, rfl, rfl, rfl, rfl⟩

/-- C8 amended: POST `/plans` stores the plan and returns it with version 0,
and GET of a stored plan returns its stored spec and version; but plans are
immutable after creation — no wired request modifies or deletes a stored
plan entry, so its spec and version never change (there is no update
endpoint; the `update_plan` handler in `src/egg/server/handlers.rs` is not
routed). -/
theorem c8_plans_create_get_immutable (oracle : Oracle) (fuel fresh : Nat)
    (req : Request) (st : ServerState) (pid : Nat) (p : Plan)
    (h : lookupPlan st.plans pid = some p) :
    lookupPlan (handleRequest oracle fuel fresh req st).plans pid = some p ∧
    (∀ (ps : PlanStore) (f : Nat) (spec : PlanSpec), lookupPlan ps f = none →
      (createPlan ps f spec).2 = { id := f, spec := spec, version := 0 } ∧
      lookupPlan (createPlan ps f spec).1 f =
        some { id := f, spec := spec, version := 0 }) ∧
    getPlan st.plans pid = .ok { id := pid, spec := p.spec, version := p.version } := by
  refine ⟨?_, ?_, ?_⟩
  · cases req with
    | createPlanReq spec =>
      simp only [handleRequest, createPlan]
      rw [lookupPlan_append, h]
    | materializePlanReq planId =>
      simp only [handleRequest]
      cases lookupPlan st.plans planId <;> exact h
    | startTaskReq taskId =>
      simp only [handleRequest]
      cases startTask st.tasks taskId <;> exact h
    | getPlanReq planId => exact h
    | listPlansReq => exact h
    | listTasksReq => exact h
    | createTaskReq spec => exact h
    | getTaskReq taskId => exact h
    | taskOutputStreamReq taskId => exact h
  · intro ps f spec hf
    refine ⟨rfl, ?_⟩
    simp only [createPlan]
    rw [lookupPlan_append, hf]
    simp [lookupPlan]
  · simp [getPlan, h]

/-- Witness for C8 amended: applied at the concrete one-plan state and a
create request. -/
theorem c8_plans_create_get_immutable_witness :
    lookupPlan (handleRequest c8Oracle 5 100 (.createPlanReq (.command ["x"]))
      c8State).plans 7 = some c8PlanRec ∧
    (∀ (ps : PlanStore) (f : Nat) (spec : PlanSpec), lookupPlan ps f = none →
      (createPlan ps f spec).2 = { id := f, spec := spec, version := 0 } ∧
      lookupPlan (createPlan ps f spec).1 f =
        some { id := f, spec := spec, version := 0 }) ∧
    getPlan c8State.plans 7 =
      .ok { id := 7, spec := c8PlanRec.spec, version := c8PlanRec.version } :=
  c8_plans_create_get_immutable c8Oracle 5 100 (.createPlanReq (.command ["x"]))
    c8State 7 c8PlanRec rfl

/-! Reachable server states and their invariants -/

/-- Task stores reachable through the engine's operations: the empty store,
direct task creation (`create_task`), plan materialization (`task` in
`src/server/plan.rs`), and admission followed by the spawned `run_task`
(`start_task` then `run_task`). -/
inductive Reach : Store → Prop where
  | empty : Reach []
  | createTask (s : Store) (fresh : Nat) (spec : TaskSpec) :
      Reach s → Reach (s ++ [(fresh, newServerTask none spec)])
  | materialize (s : Store) (plan : TaskPlan) (p : PlanSpec) (ctr : Nat) :
      Reach s → Reach (matTask plan p ctr s).2.2
  | start (s s' : Store) (ts : TaskState) (id : Nat) (oracle : Oracle) (fuel : Nat) :
      Reach s → startTask s id = .ok (s', ts) → Reach (runTask oracle fuel s' id)

/-- Invariant of every visible task record: whenever status is `Failure` an
error is stored, and the `running` handle is only ever set on a command task
that has been dispatched (status strictly past `Pending`, and never
`Waiting`, which is exclusive to composites). -/
def PerEntry (t : ServerTask) : Prop :=
  (t.status = .failure → t.error.isSome) ∧
  (t.running.isSome →
    (∃ args, t.spec = .command args) ∧ t.status ≠ .pending ∧ t.status ≠ .waiting)

/-- The per-entry invariant holds of every record visible in the store. -/
def StoreInv (s : Store) : Prop := ∀ id t, lookupTask s id = some t → PerEntry t

theorem lookupTask_mem {u : Store} {id : Nat} {t : ServerTask}
    (h : lookupTask u id = some t) : (id, t) ∈ u := by
  induction u with
  | nil => exact absurd h (by simp [lookupTask])
  | cons e u ih =>
    simp only [lookupTask] at h
    by_cases he : e.1 = id
    · rw [if_pos he] at h
      have ht : e.2 = t := Option.some.injEq _ _ |>.mp h
      have he' : (id, t) = e := by
        obtain ⟨e1, e2⟩ := e
        simp only at he ht
        rw [he, ht]
      rw [he']
      exact List.mem_cons_self e u
    · rw [if_neg he] at h
      exact List.mem_cons.mpr (.inr (ih h))

theorem perEntry_new (plan : Option TaskPlan) (spec : TaskSpec) :
    PerEntry (newServerTask plan spec) := by
  constructor
  · intro h
    exact absurd h (by simp [newServerTask])
  · intro h
    exact absurd h (by simp [newServerTask])

theorem storeInv_append (s entries : Store) (h : StoreInv s)
    (hnew : ∀ e ∈ entries, PerEntry e.2) : StoreInv (s ++ entries) := by
  intro id t hl
  rw [lookupTask_append] at hl
  cases hs : lookupTask s id with
  | some t' =>
    rw [hs] at hl
    exact (Option.some.injEq _ _ |>.mp hl) ▸ h id t' hs
  | none =>
    rw [hs] at hl
    exact hnew (id, t) (lookupTask_mem hl)

theorem storeInv_update (s : Store) (id : Nat) (f : ServerTask → ServerTask)
    (h : StoreInv s)
    (hf : ∀ t, lookupTask s id = some t → PerEntry t → PerEntry (f t)) :
    StoreInv (updateTask s id f) := by
  intro id' t hl
  by_cases he : id' = id
  · subst he
    rw [lookupTask_updateTask_self] at hl
    cases hs : lookupTask s id' with
    | none => rw [hs] at hl; exact absurd hl (by simp)
    | some t' =>
      rw [hs] at hl
      simp only [Option.map_some'] at hl
      exact (Option.some.injEq _ _ |>.mp hl) ▸ hf t' hs (h id' t' hs)
  · rw [lookupTask_updateTask_ne _ _ _ _ he] at hl
    exact h id' t hl

theorem storeInv_finishTask (s : Store) (id : Nat) (h : StoreInv s) :
    StoreInv (finishTask s id) := by
  cases hl : lookupTask s id with
  | none => simpa [finishTask, hl] using h
  | some t =>
    rw [finishTask_eq_updateTask hl]
    apply storeInv_update s id _ h
    intro t' _ hp
    refine ⟨fun hc => absurd hc (by simp [finishF]), fun hr => ?_⟩
    have hr' : t'.running.isSome := by simpa [finishF] using hr
    obtain ⟨hcmd, _, _⟩ := hp.2 hr'
    exact ⟨by simpa [finishF] using hcmd, by simp [finishF], by simp [finishF]⟩

theorem storeInv_failTask (s : Store) (id : Nat) (err : Error) (h : StoreInv s) :
    StoreInv (failTask s id err) := by
  cases hl : lookupTask s id with
  | none => simpa [failTask, hl] using h
  | some t =>
    rw [failTask_eq_updateTask hl]
    apply storeInv_update s id _ h
    intro t' _ hp
    refine ⟨fun _ => by simp [failF], fun hr => ?_⟩
    have hr' : t'.running.isSome := by simpa [failF] using hr
    obtain ⟨hcmd, _, _⟩ := hp.2 hr'
    exact ⟨by simpa [failF] using hcmd, by simp [failF], by simp [failF]⟩

theorem startStatus_ne_pending (spec : TaskSpec) : startStatus spec ≠ .pending := by
  cases spec <;> simp [startStatus]

theorem storeInv_startTask {s s' : Store} {id : Nat} {ts : TaskState}
    (h : StoreInv s) (hok : startTask s id = .ok (s', ts)) : StoreInv s' := by
  unfold startTask at hok
  split at hok
  · exact absurd hok (by simp)
  · split at hok
    · have hs' : s' = updateTask s id (fun u => { u with status := startStatus u.spec }) := by
        have := (Except.ok.injEq _ _ |>.mp hok)
        exact ((Prod.mk.injEq _ _ _ _).mp this).1.symm
      subst hs'
      apply storeInv_update s id _ h
      intro t' _ hp'
      constructor
      · intro hc
        have hcs : startStatus t'.spec = .failure := by simpa using hc
        exact absurd hcs (by cases t'.spec <;> simp [startStatus])
      · intro hr
        have hr' : t'.running.isSome := by simpa using hr
        have hcmd := hp'.2 hr'
        obtain ⟨args, hargs⟩ := hcmd.1
        refine ⟨⟨args, by simpa using hargs⟩, ?_, ?_⟩
        · simpa using startStatus_ne_pending t'.spec
        · have hrun : startStatus t'.spec = .running := by rw [hargs]; rfl
          simp [hrun]
    · exact absurd hok (by simp)

theorem storeInv_exec (oracle : Oracle) :
    ∀ (n : Nat) (s : Store) (call : Call), StoreInv s → StoreInv (exec oracle n s call) := by
  intro n
  induction n with
  | zero => intro s call h; exact h
  | succ n ih =>
    intro s call h
    cases call with
    | task id =>
      cases hl : lookupTask s id with
      | none => simpa [exec, hl] using h
      | some t =>
        cases hspec : t.spec with
        | command args =>
          rw [exec_command oracle n hl hspec]
          apply storeInv_update s id _ h
          intro t' hl' hp'
          have ht' : t' = t := by
            rw [hl] at hl'
            exact (Option.some.injEq _ _ |>.mp hl').symm
          subst ht'
          cases hb : oracle id with
          | exits lines code =>
            refine ⟨by simp [cmdApply, finishF], ?_⟩
            intro _
            exact ⟨⟨args, by simp [cmdApply, finishF, hspec]⟩,
              by simp [cmdApply, finishF], by simp [cmdApply, finishF]⟩
          | spawnFail err =>
            refine ⟨by simp [cmdApply, failF], ?_⟩
            intro _
            exact ⟨⟨args, by simp [cmdApply, failF, hspec]⟩,
              by simp [cmdApply, failF], by simp [cmdApply, failF]⟩
          | waitFail lines err =>
            refine ⟨by simp [cmdApply, failF], ?_⟩
            intro _
            exact ⟨⟨args, by simp [cmdApply, failF, hspec]⟩,
              by simp [cmdApply, failF], by simp [cmdApply, failF]⟩
        | taskGroup parallel =>
          rw [exec_taskGroup oracle n hl hspec]
          exact storeInv_finishTask _ _ (ih s (.group parallel) h)
        | taskList serial =>
          rw [exec_taskList oracle n hl hspec]
          exact ih s (.serial id serial) h
    | group cs =>
      cases cs with
      | nil => simpa [exec] using h
      | cons c cs =>
        have hstep : StoreInv (match startTask s c with
            | .error _ => s
            | .ok (s1, _) => exec oracle n s1 (.task c)) := by
          split
          · exact h
          · rename_i s1 ts1 hst
            exact ih _ (.task c) (storeInv_startTask h hst)
        simpa [exec] using ih _ (.group cs) hstep
    | serial pid cs =>
      cases cs with
      | nil => simpa [exec] using storeInv_finishTask s pid h
      | cons c cs =>
        simp only [exec]
        split
        · exact storeInv_failTask _ _ _ h
        · exact storeInv_failTask _ _ _ h
        · rename_i s1 ts1 hst
          have h1 : StoreInv (exec oracle n s1 (.task c)) :=
            ih _ (.task c) (storeInv_startTask h hst)
          split
          · exact ih _ (.serial pid cs) h1
          · exact storeInv_failTask _ _ _ h1

/-- Every reachable store satisfies the per-entry invariant. -/
theorem reach_storeInv {s : Store} (h : Reach s) : StoreInv s := by
  induction h with
  | empty => intro id t hl; exact absurd hl (by simp [lookupTask])
  | createTask s fresh spec _ ih =>
    exact storeInv_append s _ ih (by
      intro e he
      simp only [List.mem_singleton] at he
      subst he
      exact perEntry_new none spec)
  | materialize s plan p ctr _ ih =>
    obtain ⟨new, hst, _, _, _, _, _, hprops, _, _⟩ := matTask_master.1 p plan ctr s
    rw [hst]
    apply storeInv_append s new ih
    intro e he
    obtain ⟨_, h2, h3, _, _⟩ := hprops e he
    constructor
    · intro hc
      rw [h2] at hc
      exact absurd hc (by simp)
    · intro hr
      rw [h3] at hr
      exact absurd hr (by simp)
  | start s s' ts id oracle fuel _ hok ih =>
    exact storeInv_exec oracle fuel s' (.task id) (storeInv_startTask ih hok)

/-! Claim C9 -/

/-- The store of the C9 counterexample: one pending command task. -/
def c9Store : Store := [(0, newServerTask none (.command ["true"]))]

/-- OS behaviour of the C9 counterexample: the process exits cleanly. -/
def c9Oracle : Oracle := fun _ => .exits [] 0

/-- C9 counterexample: the claim says `running` is non-null iff the spec is
`Command` and the status is `Running` — in particular null again once the
task has settled.  Evaluating the embedded code: after a command task is
started and its process exits, `finish_task` sets `Success` but never
clears `running` (`src/server/run.rs` lines 159-172 touch only `status` and
`finished`), so the settled task still carries a non-null `running` —
contradicting the iff. -/
theorem c9_counterexample :
    startTask c9Store 0 =
      .ok (updateTask c9Store 0 (fun u => { u with status := startStatus u.spec }),
           { id := 0, spec := .command ["true"], status := .running }) ∧
    lookupTask (runTask c9Oracle 2
        (updateTask c9Store 0 (fun u => { u with status := startStatus u.spec })) 0) 0 =
      some { plan := none, spec := .command ["true"], status := .success,
             running := some { output := [], status := some 0 },
             notifyCount := 1, error := none } :=
  ⟨rfl, rfl⟩

/-- C9 amended: in every reachable store, `running` is non-null only on a
command task that has been dispatched (status is neither `Pending` nor
`Waiting` — so `Running` or a terminal status); composite tasks always have
`running` null; and the terminal transitions `finish_task`/`fail_task` never
change any task's `running` field, so it stays non-null after the task
settles. -/
theorem c9_running_set_iff_dispatched_command (s : Store) (h : Reach s) :
    (∀ id t, lookupTask s id = some t → t.running.isSome →
      (∃ args, t.spec = .command args) ∧ t.status ≠ .pending ∧ t.status ≠ .waiting) ∧
    (∀ id t, lookupTask s id = some t → (∀ args, t.spec ≠ .command args) →
      t.running = none) ∧
    (∀ id id', (lookupTask (finishTask s id) id').map ServerTask.running =
      (lookupTask s id').map ServerTask.running) ∧
    (∀ id id' err, (lookupTask (failTask s id err) id').map ServerTask.running =
      (lookupTask s id').map ServerTask.running) := by
  have inv := reach_storeInv h
  refine ⟨fun id t hl hr => (inv id t hl).2 hr, ?_, ?_, ?_⟩
  · intro id t hl hnc
    cases hr : t.running with
    | none => rfl
    | some p =>
      obtain ⟨⟨args, hargs⟩, _, _⟩ := (inv id t hl).2 (by simp [hr])
      exact absurd hargs (hnc args)
  · intro id id'
    by_cases he : id' = id
    · subst he
      rw [lookupTask_finishTask_self]
      cases lookupTask s id' <;> simp [finishF]
    · rw [lookupTask_finishTask_ne _ _ _ he]
  · intro id id' err
    by_cases he : id' = id
    · subst he
      rw [lookupTask_failTask_self]
      cases lookupTask s id' <;> simp [failF]
    · rw [lookupTask_failTask_ne _ _ _ _ he]

/-- Witness for C9 amended: applied to the reachable store of the
counterexample run (created, started, run to `Success`). -/
theorem c9_running_set_iff_dispatched_command_witness :
    (∀ id t, lookupTask (runTask c9Oracle 2
        (updateTask c9Store 0 (fun u => { u with status := startStatus u.spec })) 0)
        id = some t → t.running.isSome →
      (∃ args, t.spec = .command args) ∧ t.status ≠ .pending ∧ t.status ≠ .waiting) ∧
    (∀ id t, lookupTask (runTask c9Oracle 2
        (updateTask c9Store 0 (fun u => { u with status := startStatus u.spec })) 0)
        id = some t → (∀ args, t.spec ≠ .command args) →
      t.running = none) ∧
    (∀ id id', (lookupTask (finishTask (runTask c9Oracle 2
        (updateTask c9Store 0 (fun u => { u with status := startStatus u.spec })) 0)
        id) id').map ServerTask.running =
      (lookupTask (runTask c9Oracle 2
        (updateTask c9Store 0 (fun u => { u with status := startStatus u.spec })) 0)
        id').map ServerTask.running) ∧
    (∀ id id' err, (lookupTask (failTask (runTask c9Oracle 2
        (updateTask c9Store 0 (fun u => { u with status := startStatus u.spec })) 0)
        id err) id').map ServerTask.running =
      (lookupTask (runTask c9Oracle 2
        (updateTask c9Store 0 (fun u => { u with status := startStatus u.spec })) 0)
        id').map ServerTask.running) :=
  c9_running_set_iff_dispatched_command _
    (Reach.start c9Store _ _ 0 c9Oracle 2
      (Reach.createTask [] 0 (.command ["true"]) Reach.empty) rfl)

/-! Claim C10 -/

/-- C10: in every reachable store, whenever a task's status is `Failure` an
error is stored (`fail_task` writes the error together with the status under
one lock), so the `task.error.clone().unwrap()` in `wait_task`'s `Failure`
branch never panics: the modelled `wait_task` read is total (never the
panic value) on every id. -/
theorem c10_failure_implies_error_stored (s : Store) (h : Reach s) :
    (∀ id t, lookupTask s id = some t → t.status = .failure → t.error.isSome) ∧
    (∀ id, (waitTaskRead s id).isSome) := by
  have inv := reach_storeInv h
  refine ⟨fun id t hl hf => (inv id t hl).1 hf, ?_⟩
  intro id
  cases hl : lookupTask s id with
  | none => simp [waitTaskRead, hl]
  | some t =>
    cases ht : t.status with
    | failure =>
      obtain ⟨e, he⟩ := Option.isSome_iff_exists.mp ((inv id t hl).1 ht)
      simp [waitTaskRead, hl, ht, he]
    | pending => simp [waitTaskRead, hl, ht]
    | running => simp [waitTaskRead, hl, ht]
    | waiting => simp [waitTaskRead, hl, ht]
    | success => simp [waitTaskRead, hl, ht]

/-- The store of the C10 witness: one pending command task whose spawn will
fail, so its run ends in `Failure`. -/
def c10Store : Store := [(0, newServerTask none (.command ["/nonexistent"]))]

/-- OS behaviour of the C10 witness: the spawn fails. -/
def c10Oracle : Oracle := fun _ => .spawnFail "ENOENT"

/-- Witness for C10: applied to a reachable store holding a `Failure` task. -/
theorem c10_failure_implies_error_stored_witness :
    (∀ id t, lookupTask (runTask c10Oracle 2
        (updateTask c10Store 0 (fun u => { u with status := startStatus u.spec })) 0)
        id = some t → t.status = .failure → t.error.isSome) ∧
    (∀ id, (waitTaskRead (runTask c10Oracle 2
        (updateTask c10Store 0 (fun u => { u with status := startStatus u.spec })) 0)
        id).isSome) :=
  c10_failure_implies_error_stored _
    (Reach.start c10Store _ _ 0 c10Oracle 2
      (Reach.createTask [] 0 (.command ["/nonexistent"]) Reach.empty) rfl)

end Egg
